import Mathlib

set_option linter.unusedVariables false
set_option maxHeartbeats 1000000
set_option synthInstance.maxHeartbeats 400000

/-! Shallow embedding of the single-step execution engine of the MIR
interpreter (src/librustc_mir/interpret/step.rs): the step driver, the
statement executor, the rvalue evaluator and the loop-detector gate,
together with executable models of the external collaborators they call
(location/operand resolver, memory subsystem, layout subsystem, machine
capability hooks, control-flow evaluator), which live outside the embedded
source file and are modelled from the specification where marked. -/

/-- Type-layout descriptor (the layout subsystem's view of a type). The
recursive structure of real layouts is flattened: an array element's layout
is represented by its byte size (elemSize), and an enum variant's field
layout by that variant's field offsets (variantFieldOffsets) — the only
attributes the embedded code consumes. -/
structure Layout where
  ty : Nat
  size : Nat
  isUnsized : Bool
  isEnum : Bool
  fieldOffsets : List Nat
  variantFieldOffsets : List (List Nat)
  elemSize : Nat
  elems : Nat
  deriving DecidableEq

/-- The layout of a zero-sized type is one whose size is zero (is_zst). -/
def Layout.is_zst (l : Layout) : Bool := l.size == 0

/-- Modelled from the spec: the layout view of one array element, produced by
the memory subsystem's field projection on an array place; only its byte size
is consumed by the embedded code (first.layout.size in the Repeat branch). -/
def Layout.elemView (l : Layout) : Layout :=
  { ty := 0, size := l.elemSize, isUnsized := false, isEnum := false,
    fieldOffsets := [], variantFieldOffsets := [], elemSize := 0, elems := 0 }

/-- Modelled from the spec: the layout view of one aggregate field; the
embedded code only uses the field place's address, so the view is trivial. -/
def Layout.unitView : Layout :=
  { ty := 0, size := 0, isUnsized := false, isEnum := false,
    fieldOffsets := [], variantFieldOffsets := [], elemSize := 0, elems := 0 }

/-- A resolved destination: addressable location plus layout (PlaceTy). -/
structure Place where
  addr : Nat
  layout : Layout
  deriving DecidableEq

/-- The element count of an array place (mplace.len()). -/
def Place.len (p : Place) : Nat := p.layout.elems

/-- A resolved operand: its byte representation, its layout, and whether the
value is undefined/uninitialized (ScalarMaybeUndef for scalar reads). -/
structure Operand where
  bytes : List Nat
  layout : Layout
  undef : Bool
  deriving DecidableEq

/-- A scalar: a bit pattern tagged with its byte width (Scalar::Bits). -/
structure Scalar where
  bits : Nat
  size : Nat
  deriving DecidableEq

/-- An operand of a Validate statement; the machine's validation hook either
succeeds or fails on it (modelled from the spec: capability hooks fail or
succeed independently). -/
structure VOperand where
  fails : Bool
  deriving DecidableEq

/-- Nullary operators (mir::NullOp). -/
inductive NullOp where
  | Box
  | SizeOf
  deriving DecidableEq

/-- Aggregate kinds: an algebraic data type (with its enum-ness, selected
variant and optional active-field index), or anything else (tuple, array,
closure — the catch-all arm of the source match). -/
inductive AggregateKind where
  | Adt (isEnum : Bool) (variantIndex : Nat) (activeFieldIndex : Option Nat)
  | Other
  deriving DecidableEq

/-- Value-producing expressions (mir::Rvalue), with operands and places
already resolved (resolution is an external collaborator). -/
inductive Rvalue where
  | Use (operand : Operand)
  | BinaryOp (binOp : Nat) (left right : Operand)
  | CheckedBinaryOp (binOp : Nat) (left right : Operand)
  | UnaryOp (unOp : Nat) (operand : Operand)
  | Aggregate (kind : AggregateKind) (operands : List Operand)
  | Repeat (operand : Operand) (count : Nat)
  | Len (place : Place)
  | Ref (place : Place)
  | NullaryOp (op : NullOp) (ty : Nat)
  | Cast (kind : Nat) (operand : Operand) (castTy : Nat)
  | Discriminant (place : Place)
  deriving DecidableEq

/-- Non-branching instruction kinds (mir::StatementKind). -/
inductive StatementKind where
  | Assign (place : Place) (rvalue : Rvalue)
  | SetDiscriminant (place : Place) (variantIndex : Nat)
  | StorageLive (l : Nat)
  | StorageDead (l : Nat)
  | ReadForMatch
  | Validate (op : Nat) (places : List VOperand)
  | EndRegion (ce : Nat)
  | UserAssertTy
  | Nop
  | InlineAsm
  deriving DecidableEq

/-- One non-branching instruction with its source-location tag. -/
structure Statement where
  span : Nat
  kind : StatementKind
  deriving DecidableEq

/-- Modelled from the spec: the effect the external control-flow evaluator
applies for a terminator — select a block or complete the activation. -/
inductive TermEffect where
  | goto (block : Nat)
  | ret
  deriving DecidableEq

/-- A control-flow instruction with its source-location tag. -/
structure Terminator where
  span : Nat
  effect : TermEffect
  deriving DecidableEq

/-- A basic block: its non-branching statements followed by a terminator. -/
structure BasicBlock where
  statements : List Statement
  terminator : Terminator
  deriving DecidableEq

/-- A control-flow-graph function body (mir::Mir). -/
structure Mir where
  basicBlocks : List BasicBlock
  deriving DecidableEq

/-- One activation record: its body, current block, current instruction index
within that block, source-location tag and generic instantiation. -/
structure Frame where
  mir : Mir
  block : Nat
  stmt : Nat
  span : Nat
  substs : List (Nat × Nat)
  deriving DecidableEq

/-- Modelled from the spec: a loop-detector snapshot of the externally owned
machine state — capability-hook state, frame stack and memory. -/
structure Snapshot where
  machine : Nat
  stack : List Frame
  mem : List Nat
  deriving DecidableEq

/-- The evaluation errors the embedded code can produce or propagate. -/
inductive EvalError where
  | inlineAsm
  | invalidValue
  | nonTerminating
  | layoutErr
  | machineErr
  deriving DecidableEq

/-- Observable effects, recorded in order: instruction executions and calls
into the external collaborators (storage writes carry address and bytes). -/
inductive Event where
  | execStmt
  | execTerm
  | evalPlace
  | evalOperand
  | forceAlloc
  | copyOp (addr : Nat) (bytes : List Nat)
  | copyRepeat (src dst size count : Nat)
  | writeScalar (bits size addr : Nat)
  | writeValue (addr : Nat) (bytes : List Nat)
  | writeTag (variant addr : Nat)
  | writePair (addr : Nat)
  | readDiscr
  | layoutQuery
  | castEv
  | boxAllocEv
  | storageLiveEv (l : Nat)
  | storageDeadEv (l : Nat)
  | deallocEv
  | validationHook
  | endRegionHook
  | warnSlow (span : Nat)
  | observe
  | dumpPlace
  deriving DecidableEq

/-- The machine state: frame stack (bottom first, current frame last, as in
the source Vec), the signed step counter, the loop-detector snapshot set,
the opaque machine-hook state, byte-addressed memory, the pointer width, the
layout environment, the two ambient diagnostic spans, whether debug
assertions are compiled in, and the event trace. -/
structure EvalState where
  stack : List Frame
  steps_since_detector_enabled : Int
  loop_detector : List Snapshot
  machine : Nat
  mem : List Nat
  ptrSize : Nat
  tyLayouts : List (Nat × Layout)
  tcxSpan : Nat
  memSpan : Nat
  debugAssertions : Bool
  trace : List Event
  deriving DecidableEq

/-- Outcome of one engine operation: success or a user-facing error, each
with the mutated state (errors leave the state as the failing callee left
it, mirroring propagation through a mutable receiver), or an unrecoverable
programming-error abort (a failed assertion). -/
inductive MResult (α : Type) where
  | ok (a : α) (s : EvalState)
  | err (e : EvalError) (s : EvalState)
  | abort
  deriving DecidableEq

/-- Sequencing that propagates errors and aborts (the source's question-mark
operator). -/
def MResult.andThen {α β : Type} (r : MResult α) (f : α → EvalState → MResult β) : MResult β :=
  match r with
  | .ok a s => f a s
  | .err e s => .err e s
  | .abort => .abort

/-- The state carried by a non-abort outcome. -/
def MResult.state? {α : Type} : MResult α → Option EvalState
  | .ok _ s => some s
  | .err _ s => some s
  | .abort => none

/-- Whether the outcome is a success. -/
def MResult.isOk {α : Type} : MResult α → Bool
  | .ok _ _ => true
  | _ => false

/-- Append one observable event to the trace. -/
def emit (s : EvalState) (e : Event) : EvalState := { s with trace := s.trace ++ [e] }

/-- The index of the current (topmost) frame: stack.len() - 1. -/
def cur_frame (s : EvalState) : Nat := s.stack.length - 1

/-- Overwrite the memory byte at one address (out of range: no effect, as
List.set). -/
def writeBytes (m : List Nat) (a : Nat) : List Nat → List Nat
  | [] => m
  | b :: bs => writeBytes (m.set a b) (a + 1) bs

/-- Read n bytes starting at an address (out of range reads as 0). -/
def readBytes (m : List Nat) (a : Nat) : Nat → List Nat
  | 0 => []
  | n + 1 => m.getD a 0 :: readBytes m (a + 1) n

/-- Write one block at count consecutive slots starting at dst. -/
def copyBlock (m : List Nat) (blk : List Nat) (dst : Nat) : Nat → List Nat
  | 0 => m
  | k + 1 => copyBlock (writeBytes m dst blk) blk (dst + blk.length) k

/-- The little-endian byte representation of a scalar of a given width. -/
def scalarBytes (bits size : Nat) : List Nat :=
  (List.range size).map (fun i => bits / 256 ^ i % 256)

/-- The value of a little-endian byte list. -/
def bytesToNat (bs : List Nat) : Nat := bs.foldr (fun b acc => b + 256 * acc) 0

/-- Apply a function to the element at one index of a list. -/
def listModify {α : Type} (f : α → α) : Nat → List α → List α
  | _, [] => []
  | 0, a :: as => f a :: as
  | n + 1, a :: as => a :: listModify f n as

/-- Advance a frame's instruction index by one. -/
def bumpStmt (f : Frame) : Frame := { f with stmt := f.stmt + 1 }

/-- Modelled from the spec: the location resolver (eval_place, external) —
places arrive already resolved in this embedding, so resolution returns its
argument and records the resolver call. -/
def eval_place (p : Place) (s : EvalState) : MResult Place :=
  .ok p (emit s .evalPlace)

/-- Modelled from the spec: the operand resolver (eval_operand, external);
it must respect the layout hint when one is given. -/
def eval_operand (op : Operand) (hint : Option Layout) (s : EvalState) : MResult Operand :=
  .ok { op with layout := hint.getD op.layout } (emit s .evalOperand)

/-- Modelled from the spec: typed copy of an operand into a destination
(copy_op, external memory subsystem) — writes the operand's bytes at the
destination address. -/
def copy_op (op : Operand) (dest : Place) (s : EvalState) : MResult Unit :=
  let s1 := emit s (.copyOp dest.addr op.bytes)
  .ok () { s1 with mem := writeBytes s1.mem dest.addr op.bytes }

/-- Modelled from the spec: materialize a destination as concrete storage
(force_allocation, external); destinations are concrete here already. -/
def force_allocation (p : Place) (s : EvalState) : MResult Place :=
  .ok p (emit s .forceAlloc)

/-- Modelled from the spec: field projection on a concrete array place
(mplace_field, external) — element i lives at addr + i * element size. -/
def mplace_field (p : Place) (i : Nat) (s : EvalState) : MResult Place :=
  .ok { addr := p.addr + i * p.layout.elemSize, layout := p.layout.elemView } s

/-- Modelled from the spec: field projection on an aggregate destination
(place_field, external) — the field lives at the field's offset within the
destination; an out-of-range field index is a layout error. -/
def place_field (p : Place) (i : Nat) (s : EvalState) : MResult Place :=
  match p.layout.fieldOffsets.get? i with
  | some off => .ok { addr := p.addr + off, layout := Layout.unitView } s
  | none => .err .layoutErr s

/-- Modelled from the spec: narrow a destination to one variant's field
layout (place_downcast, external) — a new view over the same storage with
that variant's field offsets. -/
def place_downcast (p : Place) (v : Nat) (s : EvalState) : MResult Place :=
  let l2 : Layout := { p.layout with isEnum := false, fieldOffsets := p.layout.variantFieldOffsets.getD v [] }
  .ok { p with layout := l2 } s

/-- Modelled from the spec: write a variant tag per the type's tag encoding
(write_discriminant_value, external) — a sum type stores its tag (here: one
byte at the place's address); a non-sum type has no tag and nothing is
written. -/
def write_discriminant_value (variantIndex : Nat) (dest : Place) (s : EvalState) : MResult Unit :=
  if dest.layout.isEnum then
    let s1 := emit s (.writeTag variantIndex dest.addr)
    .ok () { s1 with mem := writeBytes s1.mem dest.addr [variantIndex % 256] }
  else .ok () s

/-- Modelled from the spec: write a scalar into a destination (write_scalar,
external) — its little-endian bytes at the destination address. -/
def write_scalar (sc : Scalar) (dest : Place) (s : EvalState) : MResult Unit :=
  let s1 := emit s (.writeScalar sc.bits sc.size dest.addr)
  .ok () { s1 with mem := writeBytes s1.mem dest.addr (scalarBytes sc.bits sc.size) }

/-- Modelled from the spec: write a reference value into a destination
(write_value, external). -/
def write_value (bytes : List Nat) (dest : Place) (s : EvalState) : MResult Unit :=
  let s1 := emit s (.writeValue dest.addr bytes)
  .ok () { s1 with mem := writeBytes s1.mem dest.addr bytes }

/-- Read an operand as a typed scalar value. -/
def read_valty (op : Operand) : Scalar :=
  { bits := bytesToNat op.bytes, size := op.layout.size }

/-- Resolve an operand and read it as a typed value
(eval_operand_and_read_valty, external). -/
def eval_operand_and_read_valty (op : Operand) (s : EvalState) : MResult Scalar :=
  .ok (read_valty op) (emit s .evalOperand)

/-- Resolve an operand and read it as a possibly-undefined scalar
(eval_operand_and_read_scalar, external). -/
def eval_operand_and_read_scalar (op : Operand) (s : EvalState) : MResult (Option Scalar) :=
  .ok (if op.undef then none else some (read_valty op)) (emit s .evalOperand)

/-- Reading an undefined scalar is an InvalidValue-class error (not_undef). -/
def not_undef : Option Scalar → EvalState → MResult Scalar
  | none, s => .err .invalidValue s
  | some sc, s => .ok sc s

/-- Modelled from the spec: the raw result of a binary operation (the
operator evaluator is external; a few representative operations). -/
def binopRaw (binOp : Nat) (l r : Nat) : Nat :=
  if binOp = 0 then l + r else if binOp = 1 then l * r else l - r

/-- Modelled from the spec: wrapping binary operation written into the
destination (binop_ignore_overflow, external). -/
def binop_ignore_overflow (binOp : Nat) (l r : Scalar) (dest : Place) (s : EvalState) :
    MResult Unit :=
  write_scalar { bits := binopRaw binOp l.bits r.bits % 256 ^ dest.layout.size,
                 size := dest.layout.size } dest s

/-- Modelled from the spec: checked binary operation — the wrapped result
paired with an overflow flag, written into the destination
(binop_with_overflow, external). -/
def binop_with_overflow (binOp : Nat) (l r : Scalar) (dest : Place) (s : EvalState) :
    MResult Unit :=
  let s1 := emit s (.writePair dest.addr)
  let raw := binopRaw binOp l.bits r.bits
  let pairBytes := scalarBytes (raw % 256 ^ l.size) l.size ++ [if raw = raw % 256 ^ l.size then 0 else 1]
  .ok () { s1 with mem := writeBytes s1.mem dest.addr pairBytes }

/-- Modelled from the spec: unary operation against the destination layout
(unary_op, external; representative negation/identity). -/
def unary_op (unOp : Nat) (v : Scalar) (l : Layout) : Scalar :=
  { bits := (if unOp = 0 then 256 ^ l.size - v.bits else v.bits) % 256 ^ l.size,
    size := l.size }

/-- Truncate or zero-extend bytes to a width. -/
def padTrunc (bs : List Nat) (n : Nat) : List Nat :=
  (List.range n).map (fun i => bs.getD i 0)

/-- Modelled from the spec: type-directed conversion into the destination
(the cast evaluator, external) — conversion semantics are out of scope, so
the source bytes are carried over at the destination width. -/
def cast_op (src : Operand) (kind : Nat) (dest : Place) (s : EvalState) : MResult Unit :=
  let s1 := emit s .castEv
  .ok () { s1 with mem := writeBytes s1.mem dest.addr (padTrunc src.bytes dest.layout.size) }

/-- Modelled from the spec: the implicit activation frame pushed by the
heap-allocation hook. -/
def boxFrame : Frame :=
  { mir := { basicBlocks := [] }, block := 0, stmt := 0, span := 0, substs := [] }

/-- Modelled from the spec: the machine's heap-allocation capability hook
(M::box_alloc, external); it pushes an implicit activation — the source
comments in step.rs note that box statements push new stack frames. -/
def box_alloc (dest : Place) (s : EvalState) : MResult Unit :=
  let s1 := emit s .boxAllocEv
  .ok () { s1 with stack := s1.stack ++ [boxFrame] }

/-- Modelled from the spec: mark a local's storage as begun (storage_live,
external); returns the previous value (dropped here). -/
def storage_live (l : Nat) (s : EvalState) : MResult Unit :=
  .ok () (emit s (.storageLiveEv l))

/-- Modelled from the spec: mark a local's storage as ended (storage_dead,
external; infallible in the source). -/
def storage_dead (l : Nat) (s : EvalState) : EvalState :=
  emit s (.storageDeadEv l)

/-- Modelled from the spec: release the storage previously occupying a local
(deallocate_local, external). -/
def deallocate_local (s : EvalState) : MResult Unit :=
  .ok () (emit s .deallocEv)

/-- Modelled from the spec: the machine's validation capability hook
(M::validation_op, external); fails or succeeds independently per operand. -/
def validation_op (op : VOperand) (s : EvalState) : MResult Unit :=
  if op.fails then .err .machineErr s else .ok () (emit s .validationHook)

/-- The Validate statement's loop over its operands, propagating the first
hook failure. -/
def runValidation : List VOperand → EvalState → MResult Unit
  | [], s => .ok () s
  | op :: rest, s =>
    match validation_op op s with
    | .ok _ s1 => runValidation rest s1
    | .err e s1 => .err e s1
    | .abort => .abort

/-- Modelled from the spec: the machine's region-end capability hook
(M::end_region, external). -/
def end_region (s : EvalState) : MResult Unit :=
  .ok () (emit s .endRegionHook)

/-- Modelled from the spec: resolve a possibly generic type against the
current instantiation (monomorphize, external). -/
def monomorphize (ty : Nat) (substs : List (Nat × Nat)) : Nat :=
  match substs.lookup ty with
  | some t => t
  | none => ty

/-- Modelled from the spec: the layout subsystem query (layout_of,
external); no recorded layout is a propagated layout error. -/
def layout_of (ty : Nat) (s : EvalState) : MResult Layout :=
  match s.tyLayouts.lookup ty with
  | some l => .ok l (emit s .layoutQuery)
  | none => .err .layoutErr s

/-- Modelled from the spec: read a place's variant tag per the type's tag
encoding (read_discriminant_value, external; inverse of the tag write). -/
def read_discriminant_value (p : Place) (s : EvalState) : Nat :=
  s.mem.getD p.addr 0

/-- Expose the destination's final contents to the debug hook (dump_place;
diagnostic only). -/
def dump_place (s : EvalState) : EvalState := emit s .dumpPlace

/-- Modelled from the spec: the overlap-safe repeated copy of the memory
subsystem (copy_repeatedly, external): the size-byte block at src is read
once and written to count consecutive slots starting at dst. -/
def copy_repeatedly (src dst size count : Nat) (s : EvalState) : MResult Unit :=
  let s1 := emit s (.copyRepeat src dst size count)
  .ok () { s1 with mem := copyBlock s1.mem (readBytes s1.mem src size) dst count }

/-- Modelled from the spec: the external control-flow evaluator
(eval_terminator): selects the next block of the current frame or completes
the activation by popping it. -/
def eval_terminator (t : Terminator) (s : EvalState) : MResult Unit :=
  match t.effect with
  | .goto b =>
    .ok () { s with stack := listModify (fun f => { f with block := b, stmt := 0 })
                               (s.stack.length - 1) s.stack }
  | .ret => .ok () { s with stack := s.stack.dropLast }

/-- Modelled from the spec: the loop detector (observe_and_analyze,
external): snapshot the machine-hook state, frame stack and memory; an
exact structural match with a stored snapshot is a NonTerminating failure,
otherwise the snapshot is retained. -/
def observe_and_analyze (s : EvalState) : MResult Unit :=
  let snap : Snapshot := { machine := s.machine, stack := s.stack, mem := s.mem }
  let s1 := emit s .observe
  if snap ∈ s1.loop_detector then .err .nonTerminating s1
  else .ok () { s1 with loop_detector := s1.loop_detector ++ [snap] }

/-- The number of steps between loop detector snapshots (a power of two for
cheap modulo arithmetic). -/
def DETECTOR_SNAPSHOT_PERIOD : Int := 256

/-- The fields of evalAggFields and the rvalue evaluator follow; first the
iteration of the Aggregate branch over its field operands: evaluate each
operand, skip zero-sized fields entirely, and copy every other field to the
offset selected by the active-field index or the sequential index. -/
def evalAggFields (dest : Place) (active : Option Nat) :
    List Operand → Nat → EvalState → MResult Unit
  | [], _, s => .ok () s
  | operand :: rest, i, s =>
    (eval_operand operand none s).andThen fun op s1 =>
      if op.layout.is_zst then evalAggFields dest active rest (i + 1) s1
      else
        (place_field dest (active.getD i) s1).andThen fun fdest s2 =>
          (copy_op op fdest s2).andThen fun _ s3 =>
            evalAggFields dest active rest (i + 1) s3

/-- Evaluate an assignment's rvalue directly into the memory of the resolved
place (eval_rvalue_into_place from the source). -/
def eval_rvalue_into_place (rvalue : Rvalue) (place : Place) (s : EvalState) : MResult Unit :=
  ((eval_place place s).andThen fun dest s1 =>
    (match rvalue with
     | .Use operand =>
       (eval_operand operand (some dest.layout) s1).andThen fun op s2 =>
         copy_op op dest s2
     | .BinaryOp binOp left right =>
       (eval_operand_and_read_valty left s1).andThen fun l s2 =>
         (eval_operand_and_read_valty right s2).andThen fun r s3 =>
           binop_ignore_overflow binOp l r dest s3
     | .CheckedBinaryOp binOp left right =>
       (eval_operand_and_read_valty left s1).andThen fun l s2 =>
         (eval_operand_and_read_valty right s2).andThen fun r s3 =>
           binop_with_overflow binOp l r dest s3
     | .UnaryOp unOp operand =>
       (eval_operand_and_read_scalar operand s1).andThen fun mv s2 =>
         (not_undef mv s2).andThen fun v s3 =>
           write_scalar (unary_op unOp v dest.layout) dest s3
     | .Aggregate kind operands =>
       (match kind with
        | .Adt adtIsEnum variantIndex activeFieldIndex =>
          (write_discriminant_value variantIndex dest s1).andThen fun _ s2 =>
            if adtIsEnum then
              (place_downcast dest variantIndex s2).andThen fun dest2 s3 =>
                evalAggFields dest2 activeFieldIndex operands 0 s3
            else evalAggFields dest activeFieldIndex operands 0 s2
        | .Other => evalAggFields dest none operands 0 s1)
     | .Repeat operand _count =>
       (eval_operand operand none s1).andThen fun op s2 =>
         (force_allocation dest s2).andThen fun dest2 s3 =>
           if dest2.len > 0 then
             (mplace_field dest2 0 s3).andThen fun first s4 =>
               (copy_op op first s4).andThen fun _ s5 =>
                 if dest2.len > 1 then
                   copy_repeatedly first.addr (first.addr + first.layout.size)
                     first.layout.size (dest2.len - 1) s5
                 else .ok () s5
           else .ok () s3
     | .Len place2 =>
       (eval_place place2 s1).andThen fun src s2 =>
         (force_allocation src s2).andThen fun mplace s3 =>
           write_scalar { bits := mplace.len, size := s3.ptrSize } dest s3
     | .Ref place2 =>
       (eval_place place2 s1).andThen fun src s2 =>
         (force_allocation src s2).andThen fun mp s3 =>
           write_value (scalarBytes mp.addr s3.ptrSize) dest s3
     | .NullaryOp .Box _ty => box_alloc dest s1
     | .NullaryOp .SizeOf ty =>
       (match s1.stack.getLast? with
        | none => .abort
        | some fr =>
          (layout_of (monomorphize ty fr.substs) s1).andThen fun layout s2 =>
            if layout.isUnsized then .abort
            else write_scalar { bits := layout.size, size := s2.ptrSize } dest s2)
     | .Cast kind operand castTy =>
       (match s1.stack.getLast? with
        | none => .abort
        | some fr =>
          if s1.debugAssertions = true ∧ monomorphize castTy fr.substs ≠ dest.layout.ty
          then .abort
          else
            (eval_operand operand none s1).andThen fun src s2 =>
              cast_op src kind dest s2)
     | .Discriminant place2 =>
       (eval_place place2 s1).andThen fun p s2 =>
         write_scalar { bits := read_discriminant_value p s2, size := dest.layout.size }
           dest (emit s2 .readDiscr)
    ).andThen fun _ s9 => .ok () (dump_place s9))

/-- Dispatch on the non-branching instruction kind (the match inside the
source's statement method). -/
def statementDispatch (k : StatementKind) (s : EvalState) : MResult Unit :=
  match k with
  | .Assign place rvalue => eval_rvalue_into_place rvalue place s
  | .SetDiscriminant place variantIndex =>
    (eval_place place s).andThen fun dest s1 =>
      write_discriminant_value variantIndex dest s1
  | .StorageLive l =>
    (storage_live l s).andThen fun _ s1 => deallocate_local s1
  | .StorageDead l => deallocate_local (storage_dead l s)
  | .ReadForMatch => .ok () s
  | .Validate _op places => runValidation places s
  | .EndRegion _ce => end_region s
  | .UserAssertTy => .ok () s
  | .Nop => .ok () s
  | .InlineAsm => .err .inlineAsm s

/-- Execute one non-branching instruction (the source's statement method):
record the owning frame index before execution, set the ambient diagnostic
spans, dispatch, and on success advance the originally recorded frame's
instruction index by one. -/
def statement (st : Statement) (s : EvalState) : MResult Unit :=
  let frame_idx := cur_frame s
  let s1 := { s with tcxSpan := st.span, memSpan := st.span,
                     trace := s.trace ++ [Event.execStmt] }
  match statementDispatch st.kind s1 with
  | .ok _ s2 => .ok () { s2 with stack := listModify bumpStmt frame_idx s2.stack }
  | .err e s2 => .err e s2
  | .abort => .abort

/-- Dispatch a terminator (the source's terminator method): set the ambient
diagnostic spans and forward to the external control-flow evaluator. -/
def terminator (t : Terminator) (s : EvalState) : MResult Unit :=
  let s1 := { s with tcxSpan := t.span, memSpan := t.span,
                     trace := s.trace ++ [Event.execTerm] }
  match eval_terminator t s1 with
  | .ok _ s2 => .ok () s2
  | .err e s2 => .err e s2
  | .abort => .abort

/-- The detection phase of the loop-detector gate: warn on the first
activation (reading the current frame's span, which panics on an empty
stack), then snapshot and compare. -/
def detect_phase (s2 : EvalState) : MResult Unit :=
  if s2.loop_detector.isEmpty then
    match s2.stack.getLast? with
    | none => .abort
    | some fr => observe_and_analyze (emit s2 (.warnSlow fr.span))
  else observe_and_analyze s2

/-- The loop-detector gate (inc_step_counter_and_detect_loops from the
source): increment the step counter; a negative counter exits immediately;
otherwise reduce it modulo the period and run detection only at remainder
zero, warning once on the first activation. -/
def inc_step_counter_and_detect_loops (s : EvalState) : MResult Unit :=
  let steps1 := s.steps_since_detector_enabled + 1
  if steps1 < 0 then .ok () { s with steps_since_detector_enabled := steps1 }
  else
    let steps2 := Int.tmod steps1 DETECTOR_SNAPSHOT_PERIOD
    if steps2 ≠ 0 then .ok () { s with steps_since_detector_enabled := steps2 }
    else detect_phase { s with steps_since_detector_enabled := steps2 }

/-- The step driver (the source's step method): return false on an empty
frame stack; otherwise execute the statement at the current frame's
instruction index, or — past the last statement — run the loop-detector
gate and then the block's terminator, returning true. -/
def step (s : EvalState) : MResult Bool :=
  if s.stack.isEmpty then .ok false s
  else
    match s.stack.getLast? with
    | none => .abort
    | some fr =>
      match fr.mir.basicBlocks.get? fr.block with
      | none => .abort
      | some basic_block =>
        let old_frames := cur_frame s
        match basic_block.statements.get? fr.stmt with
        | some st =>
          if old_frames = cur_frame s then
            match statement st s with
            | .ok _ s1 => .ok true s1
            | .err e s1 => .err e s1
            | .abort => .abort
          else .abort
        | none =>
          match inc_step_counter_and_detect_loops s with
          | .ok _ s1 =>
            if old_frames = cur_frame s1 then
              match terminator basic_block.terminator s1 with
              | .ok _ s2 => .ok true s2
              | .err e s2 => .err e s2
              | .abort => .abort
            else .abort
          | .err e s1 => .err e s1
          | .abort => .abort

/-- Repeated invocation of the loop-detector gate, stopping at the first
non-success. -/
def incIter : Nat → EvalState → MResult Unit
  | 0, s => .ok () s
  | k + 1, s =>
    match inc_step_counter_and_detect_loops s with
    | .ok _ s1 => incIter k s1
    | .err e s1 => .err e s1
    | .abort => .abort

/-- Map a unit success onto the step driver's true result, propagating
errors and aborts. -/
def toStepResult (r : MResult Unit) : MResult Bool :=
  match r with
  | .ok _ s2 => .ok true s2
  | .err e s2 => .err e s2
  | .abort => .abort

/-- Whether an event records the execution of an instruction (statement or
terminator), as opposed to a collaborator call. -/
def isInstrEv : Event → Bool
  | .execStmt => true
  | .execTerm => true
  | _ => false

/-- Number of instruction executions recorded in a trace. -/
def instrCount (tr : List Event) : Nat := tr.countP isInstrEv

/-- Quiet evolution between two states: the frame stack is only extended
(by pushed frames) and the trace is only extended by collaborator events,
never by instruction executions. -/
def quiet (s s2 : EvalState) : Prop :=
  (∃ ps, s2.stack = s.stack ++ ps) ∧
  (∃ ev, s2.trace = s.trace ++ ev ∧ ev.countP isInstrEv = 0)

/-- Quiet evolution of an operation outcome from its input state. -/
def quietR {α : Type} (s : EvalState) : MResult α → Prop
  | .ok _ s2 => quiet s s2
  | .err _ s2 => quiet s s2
  | .abort => True

/-- The events contributed by one aggregate field: the operand resolution,
and — unless the field is zero-sized — the copy into the field offset chosen
by the active-field override or the sequential index. -/
def fieldEvents (addr : Nat) (offsets : List Nat) (active : Option Nat) (i : Nat)
    (op : Operand) : List Event :=
  if op.layout.is_zst then [.evalOperand]
  else [.evalOperand, .copyOp (addr + offsets.getD (active.getD i) 0) op.bytes]

/-- The events contributed by an aggregate's field list, in declaration
order. -/
def fieldsEvents (addr : Nat) (offsets : List Nat) (active : Option Nat) :
    Nat → List Operand → List Event
  | _, [] => []
  | i, op :: rest =>
    fieldEvents addr offsets active i op ++ fieldsEvents addr offsets active (i + 1) rest

/-- The memory produced by an aggregate's field writes: zero-sized fields
touch nothing; every other field's bytes land at its selected offset. -/
def fieldsMem (addr : Nat) (offsets : List Nat) (active : Option Nat) :
    Nat → List Operand → List Nat → List Nat
  | _, [], m => m
  | i, op :: rest, m =>
    if op.layout.is_zst then fieldsMem addr offsets active (i + 1) rest m
    else fieldsMem addr offsets active (i + 1) rest
      (writeBytes m (addr + offsets.getD (active.getD i) 0) op.bytes)

/-- An empty function body, for frames that never run. -/
def mir0 : Mir := { basicBlocks := [] }

/-- A base machine state shared by the concrete runs below. -/
def baseSt : EvalState :=
  { stack := [], steps_since_detector_enabled := 0, loop_detector := [], machine := 0,
    mem := List.replicate 32 0, ptrSize := 8, tyLayouts := [], tcxSpan := 0, memSpan := 0,
    debugAssertions := true, trace := [] }


/-- A no-op statement used in the concrete runs below. -/
def nopStmt : Statement := { span := 3, kind := .Nop }

/-- A completing terminator used in the concrete runs below. -/
def retTerm : Terminator := { span := 4, effect := .ret }

/-- A one-statement block used in the concrete runs below. -/
def bbNop : BasicBlock := { statements := [nopStmt], terminator := retTerm }

/-- A frame positioned at the no-op statement. -/
def frNop : Frame :=
  { mir := { basicBlocks := [bbNop] }, block := 0, stmt := 0, span := 5, substs := [] }

/-- A state with one frame about to run the no-op statement. -/
def stNop : EvalState := { baseSt with stack := [frNop] }

/-- A state with one frame positioned past the last statement. -/
def stTerm : EvalState := { baseSt with stack := [{ frNop with stmt := 1 }] }

/-- The expected state after executing the no-op statement from stNop. -/
def stNopAfter : EvalState :=
  { baseSt with stack := [{ frNop with stmt := 1 }], tcxSpan := 3, memSpan := 3, trace := [Event.execStmt] }

/-- An 8-byte scalar layout for concrete destinations. -/
def scalar8 : Layout :=
  { ty := 1, size := 8, isUnsized := false, isEnum := false, fieldOffsets := [],
    variantFieldOffsets := [], elemSize := 0, elems := 0 }

/-- A heap-allocation (box) assignment: the one statement kind of this model
that pushes a frame mid-execution. -/
def boxStmt : Statement :=
  { span := 6, kind := .Assign { addr := 0, layout := scalar8 } (.NullaryOp .Box 0) }

/-- A frame about to execute the box assignment. -/
def frBox : Frame :=
  { mir := { basicBlocks := [{ statements := [boxStmt], terminator := retTerm }] },
    block := 0, stmt := 0, span := 7, substs := [] }

/-- A state whose next step executes a frame-pushing statement. -/
def c8state : EvalState := { baseSt with stack := [frBox] }

/-- The state after stepping the frame-pushing run. -/
def c8after : EvalState :=
  match step c8state with
  | .ok _ s2 => s2
  | _ => c8state

/-- A state with counter 5, for exercising the non-detection path. -/
def c3s : EvalState := { baseSt with stack := [frNop], steps_since_detector_enabled := 5 }

/-- A state entering the gate with the counter at the −1 boundary. -/
def c10s : EvalState := { baseSt with stack := [frNop], steps_since_detector_enabled := -1 }

/-- The state left by the gate run from the −1 boundary. -/
def c10after : EvalState :=
  match (inc_step_counter_and_detect_loops c10s).state? with
  | some x => x
  | none => baseSt

/-- A 3-element array destination with 2-byte elements at address 4. -/
def c4dest : Place :=
  { addr := 4, layout := { ty := 0, size := 6, isUnsized := false, isEnum := false, fieldOffsets := [], variantFieldOffsets := [], elemSize := 2, elems := 3 } }

/-- A 2-byte source operand for the array fill. -/
def c4op : Operand := { bytes := [7, 9], layout := scalar8, undef := false }

/-- The state after the concrete Repeat evaluation. -/
def c4after : EvalState :=
  match eval_rvalue_into_place (.Repeat c4op 3) c4dest stNop with
  | .ok _ s2 => s2
  | _ => stNop

/-- The field offsets an aggregate write targets: the selected variant's
offsets after the downcast for a sum type, the type's own offsets
otherwise. -/
def aggOffsets (pl : Place) (isEnum : Bool) (v : Nat) : List Nat :=
  if isEnum then pl.layout.variantFieldOffsets.getD v [] else pl.layout.fieldOffsets

/-- The memory after the tag write of an aggregate: a sum type stores the
selected variant's tag at the destination, a non-sum type stores nothing. -/
def tagMem (pl : Place) (isEnum : Bool) (v : Nat) (m : List Nat) : List Nat :=
  if isEnum then writeBytes m pl.addr [v % 256] else m

/-- A one-byte field layout for the concrete aggregate run. -/
def byte1 : Layout :=
  { ty := 0, size := 1, isUnsized := false, isEnum := false, fieldOffsets := [], variantFieldOffsets := [], elemSize := 0, elems := 0 }

/-- A two-variant sum-type destination at address 2; variant 1 has one field
at offset 1. -/
def c5dest : Place :=
  { addr := 2, layout := { ty := 0, size := 8, isUnsized := false, isEnum := true, fieldOffsets := [], variantFieldOffsets := [[], [1]], elemSize := 0, elems := 0 } }

/-- The single field operand, value 7, of the concrete aggregate run. -/
def c5fieldOp : Operand := { bytes := [7], layout := byte1, undef := false }

/-- The state after the concrete aggregate construction. -/
def c5after : EvalState :=
  match eval_rvalue_into_place (.Aggregate (.Adt true 1 none) [c5fieldOp]) c5dest stNop with
  | .ok _ s2 => s2
  | _ => stNop

/-- A zero-sized but sized type layout, recorded under type id 9. -/
def zstLayout : Layout :=
  { ty := 9, size := 0, isUnsized := false, isEnum := false, fieldOffsets := [], variantFieldOffsets := [], elemSize := 0, elems := 0 }

/-- An 8-byte sized type layout, recorded under type id 11. -/
def size8Layout : Layout :=
  { ty := 11, size := 8, isUnsized := false, isEnum := false, fieldOffsets := [], variantFieldOffsets := [], elemSize := 0, elems := 0 }

/-- An unsized type layout, recorded under type id 12. -/
def unsizedLayout : Layout :=
  { ty := 12, size := 0, isUnsized := true, isEnum := false, fieldOffsets := [], variantFieldOffsets := [], elemSize := 0, elems := 0 }

/-- A state whose layout environment holds the three size-of test types. -/
def c6state : EvalState :=
  { stNop with tyLayouts := [(9, zstLayout), (11, size8Layout), (12, unsizedLayout)] }

/-- An 8-byte destination at address 16 for the size-of results. -/
def c6dest : Place := { addr := 16, layout := scalar8 }

/-- The state after size-of on the 8-byte type. -/
def c6w8after : EvalState :=
  match eval_rvalue_into_place (.NullaryOp .SizeOf 11) c6dest c6state with
  | .ok _ s2 => s2
  | _ => c6state

/-- A destination of declared type 5 for the cast runs. -/
def c9dest : Place :=
  { addr := 0, layout := { ty := 5, size := 4, isUnsized := false, isEnum := false, fieldOffsets := [], variantFieldOffsets := [], elemSize := 0, elems := 0 } }

/-- The cast source operand. -/
def c9op : Operand := { bytes := [1, 2, 3, 4], layout := scalar8, undef := false }

/-- A release-configuration state: debug assertions compiled out. -/
def c9rel : EvalState := { stNop with debugAssertions := false }

/-- Writing bytes never changes the memory size. -/
theorem writeBytes_length (bs : List Nat) : ∀ (m : List Nat) (a : Nat),
    (writeBytes m a bs).length = m.length := by
  induction bs with
  | nil => intro m a; rfl
  | cons b bs ih => intro m a; rw [writeBytes, ih, List.length_set]

/-- Reading back the byte just set, in range. -/
theorem getD_set_self (m : List Nat) : ∀ (a b : Nat), a < m.length →
    (m.set a b).getD a 0 = b := by
  induction m with
  | nil => intro a b h; simp at h
  | cons c cs ih =>
    intro a b h
    cases a with
    | zero => rfl
    | succ a =>
      simp only [List.set, List.getD_cons_succ]
      exact ih a b (by simpa using h)

/-- Setting one index leaves other positions unchanged. -/
theorem getD_set_ne (m : List Nat) : ∀ (a b p : Nat), p ≠ a →
    (m.set a b).getD p 0 = m.getD p 0 := by
  induction m with
  | nil => intro a b p _; rfl
  | cons c cs ih =>
    intro a b p h
    cases a with
    | zero =>
      cases p with
      | zero => exact absurd rfl h
      | succ p => rfl
    | succ a =>
      cases p with
      | zero => rfl
      | succ p =>
        simp only [List.set, List.getD_cons_succ]
        exact ih a b p (fun he => h (by rw [he]))

/-- A block write leaves every position below its start unchanged. -/
theorem writeBytes_getD_below (bs : List Nat) : ∀ (m : List Nat) (a p : Nat), p < a →
    (writeBytes m a bs).getD p 0 = m.getD p 0 := by
  induction bs with
  | nil => intro m a p _; rfl
  | cons b bs ih =>
    intro m a p hp
    rw [writeBytes, ih _ _ _ (by omega), getD_set_ne _ _ _ _ (by omega)]

/-- Reads only depend on the bytes in the window read. -/
theorem readBytes_ext (m1 m2 : List Nat) : ∀ (n a : Nat),
    (∀ p, a ≤ p → p < a + n → m1.getD p 0 = m2.getD p 0) →
    readBytes m1 a n = readBytes m2 a n := by
  intro n
  induction n with
  | zero => intro a _; rfl
  | succ n ih =>
    intro a h
    rw [readBytes, readBytes, h a (Nat.le_refl a) (by omega),
        ih (a + 1) (fun p h1 h2 => h p (by omega) (by omega))]

/-- Reading back a block just written, in range. -/
theorem readBytes_writeBytes (bs : List Nat) : ∀ (m : List Nat) (a : Nat),
    a + bs.length ≤ m.length → readBytes (writeBytes m a bs) a bs.length = bs := by
  induction bs with
  | nil => intro m a _; rfl
  | cons b bs ih =>
    intro m a h
    have hlen : a < m.length := by simp only [List.length_cons] at h; omega
    show readBytes (writeBytes (m.set a b) (a + 1) bs) a (bs.length + 1) = b :: bs
    rw [readBytes, writeBytes_getD_below bs _ _ _ (by omega), getD_set_self m a b hlen,
        ih (m.set a b) (a + 1) (by rw [List.length_set]; simp only [List.length_cons] at h; omega)]

/-- Repeated block writes never change the memory size. -/
theorem copyBlock_length (blk : List Nat) : ∀ (count : Nat) (m : List Nat) (dst : Nat),
    (copyBlock m blk dst count).length = m.length := by
  intro count
  induction count with
  | zero => intro m dst; rfl
  | succ k ih => intro m dst; rw [copyBlock, ih, writeBytes_length]

/-- Repeated block writes leave every position below their start unchanged. -/
theorem copyBlock_getD_below (blk : List Nat) : ∀ (count : Nat) (m : List Nat) (dst p : Nat),
    p < dst → (copyBlock m blk dst count).getD p 0 = m.getD p 0 := by
  intro count
  induction count with
  | zero => intro m dst p _; rfl
  | succ k ih =>
    intro m dst p hp
    rw [copyBlock, ih _ _ _ (by omega), writeBytes_getD_below _ _ _ _ hp]

/-- Every slot written by the repeated copy holds the block, in range. -/
theorem copyBlock_slots (blk : List Nat) : ∀ (count : Nat) (m : List Nat) (dst : Nat),
    dst + count * blk.length ≤ m.length → ∀ j, j < count →
    readBytes (copyBlock m blk dst count) (dst + j * blk.length) blk.length = blk := by
  intro count
  induction count with
  | zero => intro m dst _ j hj; omega
  | succ k ih =>
    intro m dst h j hj
    rw [Nat.succ_mul] at h
    rw [copyBlock]
    cases j with
    | zero =>
      rw [Nat.zero_mul, Nat.add_zero]
      have h1 : readBytes (copyBlock (writeBytes m dst blk) blk (dst + blk.length) k)
          dst blk.length = readBytes (writeBytes m dst blk) dst blk.length :=
        readBytes_ext _ _ _ _ (fun p _ h2 => copyBlock_getD_below blk k _ _ p (by omega))
      rw [h1, readBytes_writeBytes blk m dst (by omega)]
    | succ j =>
      have h2 := ih (writeBytes m dst blk) (dst + blk.length)
        (by rw [writeBytes_length]; omega) j (by omega)
      rw [show dst + (j + 1) * blk.length = dst + blk.length + j * blk.length by ring]
      exact h2

/-- Modifying one list index preserves the length. -/
theorem listModify_length {A : Type} (f : A → A) : ∀ (n : Nat) (l : List A),
    (listModify f n l).length = l.length := by
  intro n
  induction n with
  | zero => intro l; cases l <;> rfl
  | succ n ih =>
    intro l
    cases l with
    | nil => rfl
    | cons a as => simp [listModify, ih]

/-- The modified index holds the image of the old element. -/
theorem listModify_get_self {A : Type} (f : A → A) : ∀ (n : Nat) (l : List A),
    (listModify f n l).get? n = (l.get? n).map f := by
  intro n
  induction n with
  | zero => intro l; cases l <;> rfl
  | succ n ih =>
    intro l
    cases l with
    | nil => rfl
    | cons a as => simpa [listModify] using ih as

/-- Other indices are untouched by the modification. -/
theorem listModify_get_ne {A : Type} (f : A → A) : ∀ (n k : Nat) (l : List A), k ≠ n →
    (listModify f n l).get? k = l.get? k := by
  intro n
  induction n with
  | zero =>
    intro k l hk
    cases l with
    | nil => rfl
    | cons a as => cases k with
      | zero => exact absurd rfl hk
      | succ k => rfl
  | succ n ih =>
    intro k l hk
    cases l with
    | nil => rfl
    | cons a as =>
      cases k with
      | zero => rfl
      | succ k => simpa [listModify] using ih k as (fun he => hk (by rw [he]))

theorem quiet_refl (s : EvalState) : quiet s s :=
  ⟨⟨[], (List.append_nil _).symm⟩, ⟨[], (List.append_nil _).symm, rfl⟩⟩

theorem quiet_trans {s1 s2 s3 : EvalState} (h1 : quiet s1 s2) (h2 : quiet s2 s3) :
    quiet s1 s3 := by
  obtain ⟨⟨ps1, hp1⟩, ⟨ev1, he1, hc1⟩⟩ := h1
  obtain ⟨⟨ps2, hp2⟩, ⟨ev2, he2, hc2⟩⟩ := h2
  refine ⟨⟨ps1 ++ ps2, ?_⟩, ⟨ev1 ++ ev2, ?_, ?_⟩⟩
  · rw [hp2, hp1, List.append_assoc]
  · rw [he2, he1, List.append_assoc]
  · rw [List.countP_append, hc1, hc2]

theorem quietR_of_quiet {α : Type} {s s2 : EvalState} {r : MResult α}
    (h : quiet s s2) (h2 : quietR s2 r) : quietR s r := by
  cases r with
  | ok a s3 => exact quiet_trans h h2
  | err e s3 => exact quiet_trans h h2
  | abort => trivial

theorem quietR_andThen {α β : Type} {s : EvalState} {r : MResult α}
    {f : α → EvalState → MResult β} (h1 : quietR s r)
    (h2 : ∀ a s2, r = .ok a s2 → quietR s2 (f a s2)) : quietR s (r.andThen f) := by
  cases r with
  | ok a s2 => exact quietR_of_quiet h1 (h2 a s2 rfl)
  | err e s2 => exact h1
  | abort => trivial

/-- Quiet evolution into a state reached by one non-instruction event. -/
theorem quiet_emit (s : EvalState) (e : Event) (h : isInstrEv e = false) :
    quiet s (emit s e) :=
  ⟨⟨[], (List.append_nil _).symm⟩, ⟨[e], rfl, by simp [h]⟩⟩

/-- Quiet evolution when only non-stack non-trace fields change. -/
theorem quiet_same_stack_trace {s s2 : EvalState} (h1 : s2.stack = s.stack)
    (h2 : s2.trace = s.trace) : quiet s s2 :=
  ⟨⟨[], by rw [h1, List.append_nil]⟩, ⟨[], by rw [h2, List.append_nil], rfl⟩⟩

theorem quietR_eval_place (p : Place) (s : EvalState) : quietR s (eval_place p s) :=
  quiet_emit s .evalPlace rfl

theorem quietR_eval_operand (op : Operand) (hint : Option Layout) (s : EvalState) :
    quietR s (eval_operand op hint s) :=
  quiet_emit s .evalOperand rfl

theorem quietR_copy_op (op : Operand) (dest : Place) (s : EvalState) :
    quietR s (copy_op op dest s) :=
  quiet_trans (quiet_emit s (.copyOp dest.addr op.bytes) rfl)
    (quiet_same_stack_trace rfl rfl)

theorem quietR_force_allocation (p : Place) (s : EvalState) :
    quietR s (force_allocation p s) :=
  quiet_emit s .forceAlloc rfl

theorem quietR_mplace_field (p : Place) (i : Nat) (s : EvalState) :
    quietR s (mplace_field p i s) :=
  quiet_refl s

theorem quietR_place_field (p : Place) (i : Nat) (s : EvalState) :
    quietR s (place_field p i s) := by
  unfold place_field
  cases p.layout.fieldOffsets.get? i with
  | none => exact quiet_refl s
  | some off => exact quiet_refl s

theorem quietR_place_downcast (p : Place) (v : Nat) (s : EvalState) :
    quietR s (place_downcast p v s) :=
  quiet_refl s

theorem quietR_write_discriminant_value (v : Nat) (dest : Place) (s : EvalState) :
    quietR s (write_discriminant_value v dest s) := by
  unfold write_discriminant_value
  by_cases h : dest.layout.isEnum = true
  · rw [if_pos h]
    exact quiet_trans (quiet_emit s (.writeTag v dest.addr) rfl)
      (quiet_same_stack_trace rfl rfl)
  · rw [if_neg h]
    exact quiet_refl s

theorem quietR_write_scalar (sc : Scalar) (dest : Place) (s : EvalState) :
    quietR s (write_scalar sc dest s) :=
  quiet_trans (quiet_emit s (.writeScalar sc.bits sc.size dest.addr) rfl)
    (quiet_same_stack_trace rfl rfl)

theorem quietR_write_value (bytes : List Nat) (dest : Place) (s : EvalState) :
    quietR s (write_value bytes dest s) :=
  quiet_trans (quiet_emit s (.writeValue dest.addr bytes) rfl)
    (quiet_same_stack_trace rfl rfl)

theorem quietR_eval_operand_and_read_valty (op : Operand) (s : EvalState) :
    quietR s (eval_operand_and_read_valty op s) :=
  quiet_emit s .evalOperand rfl

theorem quietR_eval_operand_and_read_scalar (op : Operand) (s : EvalState) :
    quietR s (eval_operand_and_read_scalar op s) :=
  quiet_emit s .evalOperand rfl

theorem quietR_not_undef (mv : Option Scalar) (s : EvalState) :
    quietR s (not_undef mv s) := by
  cases mv with
  | none => exact quiet_refl s
  | some sc => exact quiet_refl s

theorem quietR_binop_ignore_overflow (b : Nat) (l r : Scalar) (dest : Place) (s : EvalState) :
    quietR s (binop_ignore_overflow b l r dest s) :=
  quietR_write_scalar _ dest s

theorem quietR_binop_with_overflow (b : Nat) (l r : Scalar) (dest : Place) (s : EvalState) :
    quietR s (binop_with_overflow b l r dest s) :=
  quiet_trans (quiet_emit s (.writePair dest.addr) rfl)
    (quiet_same_stack_trace rfl rfl)

theorem quietR_cast_op (src : Operand) (k : Nat) (dest : Place) (s : EvalState) :
    quietR s (cast_op src k dest s) :=
  quiet_trans (quiet_emit s .castEv rfl) (quiet_same_stack_trace rfl rfl)

theorem quietR_box_alloc (dest : Place) (s : EvalState) : quietR s (box_alloc dest s) := by
  refine ⟨⟨[boxFrame], ?_⟩, ⟨[Event.boxAllocEv], ?_, rfl⟩⟩ <;> rfl

theorem quietR_storage_live (l : Nat) (s : EvalState) : quietR s (storage_live l s) :=
  quiet_emit s (.storageLiveEv l) rfl

theorem quiet_storage_dead (l : Nat) (s : EvalState) : quiet s (storage_dead l s) :=
  quiet_emit s (.storageDeadEv l) rfl

theorem quietR_deallocate_local (s : EvalState) : quietR s (deallocate_local s) :=
  quiet_emit s .deallocEv rfl

theorem quietR_validation_op (op : VOperand) (s : EvalState) :
    quietR s (validation_op op s) := by
  unfold validation_op
  by_cases h : op.fails = true
  · rw [if_pos h]; exact quiet_refl s
  · rw [if_neg h]; exact quiet_emit s .validationHook rfl

theorem quietR_runValidation (ops : List VOperand) : ∀ (s : EvalState),
    quietR s (runValidation ops s) := by
  induction ops with
  | nil => intro s; exact quiet_refl s
  | cons op rest ih =>
    intro s
    rw [runValidation]
    have h := quietR_validation_op op s
    cases hv : validation_op op s with
    | ok a s1 =>
      rw [hv] at h
      exact quietR_of_quiet h (ih s1)
    | err e s1 => rw [hv] at h; exact h
    | abort => trivial

theorem quietR_end_region (s : EvalState) : quietR s (end_region s) :=
  quiet_emit s .endRegionHook rfl

theorem quietR_layout_of (ty : Nat) (s : EvalState) : quietR s (layout_of ty s) := by
  unfold layout_of
  cases s.tyLayouts.lookup ty with
  | none => exact quiet_refl s
  | some l => exact quiet_emit s .layoutQuery rfl

theorem quietR_copy_repeatedly (src dst size count : Nat) (s : EvalState) :
    quietR s (copy_repeatedly src dst size count s) :=
  quiet_trans (quiet_emit s (.copyRepeat src dst size count) rfl)
    (quiet_same_stack_trace rfl rfl)

theorem quiet_dump_place (s : EvalState) : quiet s (dump_place s) :=
  quiet_emit s .dumpPlace rfl

theorem quietR_evalAggFields (dest : Place) (active : Option Nat) (ops : List Operand) :
    ∀ (i : Nat) (s : EvalState), quietR s (evalAggFields dest active ops i s) := by
  induction ops with
  | nil => intro i s; exact quiet_refl s
  | cons op rest ih =>
    intro i s
    rw [evalAggFields]
    refine quietR_andThen (quietR_eval_operand op none s) ?_
    intro op1 s1 _
    by_cases hz : op1.layout.is_zst = true
    · rw [if_pos hz]; exact ih (i + 1) s1
    · rw [if_neg hz]
      refine quietR_andThen (quietR_place_field dest (active.getD i) s1) ?_
      intro fdest s2 _
      refine quietR_andThen (quietR_copy_op op1 fdest s2) ?_
      intro _ s3 _
      exact ih (i + 1) s3

theorem quietR_eval_rvalue_into_place (rv : Rvalue) (place : Place) (s : EvalState) :
    quietR s (eval_rvalue_into_place rv place s) := by
  rw [eval_rvalue_into_place]
  refine quietR_andThen (quietR_eval_place place s) ?_
  intro dest s1 _
  refine quietR_andThen ?_ ?_
  case refine_2 =>
    intro a s9 _
    exact quiet_dump_place s9
  cases rv with
  | Use operand =>
    refine quietR_andThen (quietR_eval_operand operand _ s1) ?_
    intro op s2 _
    exact quietR_copy_op op dest s2
  | BinaryOp b left right =>
    refine quietR_andThen (quietR_eval_operand_and_read_valty left s1) ?_
    intro l s2 _
    refine quietR_andThen (quietR_eval_operand_and_read_valty right s2) ?_
    intro r s3 _
    exact quietR_binop_ignore_overflow b l r dest s3
  | CheckedBinaryOp b left right =>
    refine quietR_andThen (quietR_eval_operand_and_read_valty left s1) ?_
    intro l s2 _
    refine quietR_andThen (quietR_eval_operand_and_read_valty right s2) ?_
    intro r s3 _
    exact quietR_binop_with_overflow b l r dest s3
  | UnaryOp u operand =>
    refine quietR_andThen (quietR_eval_operand_and_read_scalar operand s1) ?_
    intro mv s2 _
    refine quietR_andThen (quietR_not_undef mv s2) ?_
    intro v s3 _
    exact quietR_write_scalar _ dest s3
  | Aggregate kind operands =>
    cases kind with
    | Adt adtIsEnum variantIndex activeFieldIndex =>
      refine quietR_andThen (quietR_write_discriminant_value variantIndex dest s1) ?_
      intro _ s2 _
      by_cases he : adtIsEnum = true
      · rw [if_pos he]
        refine quietR_andThen (quietR_place_downcast dest variantIndex s2) ?_
        intro dest2 s3 _
        exact quietR_evalAggFields dest2 activeFieldIndex operands 0 s3
      · rw [if_neg he]
        exact quietR_evalAggFields dest activeFieldIndex operands 0 s2
    | Other => exact quietR_evalAggFields dest none operands 0 s1
  | Repeat operand count =>
    refine quietR_andThen (quietR_eval_operand operand none s1) ?_
    intro op s2 _
    refine quietR_andThen (quietR_force_allocation dest s2) ?_
    intro dest2 s3 _
    by_cases hl : dest2.len > 0
    · rw [if_pos hl]
      refine quietR_andThen (quietR_mplace_field dest2 0 s3) ?_
      intro first s4 _
      refine quietR_andThen (quietR_copy_op op first s4) ?_
      intro _ s5 _
      by_cases hl2 : dest2.len > 1
      · rw [if_pos hl2]
        exact quietR_copy_repeatedly _ _ _ _ s5
      · rw [if_neg hl2]
        exact quiet_refl s5
    · rw [if_neg hl]
      exact quiet_refl s3
  | Len place2 =>
    refine quietR_andThen (quietR_eval_place place2 s1) ?_
    intro src s2 _
    refine quietR_andThen (quietR_force_allocation src s2) ?_
    intro mplace s3 _
    exact quietR_write_scalar _ dest s3
  | Ref place2 =>
    refine quietR_andThen (quietR_eval_place place2 s1) ?_
    intro src s2 _
    refine quietR_andThen (quietR_force_allocation src s2) ?_
    intro mp s3 _
    exact quietR_write_value _ dest s3
  | NullaryOp op ty =>
    cases op with
    | Box => exact quietR_box_alloc dest s1
    | SizeOf =>
      cases s1.stack.getLast? with
      | none => trivial
      | some fr =>
        refine quietR_andThen (quietR_layout_of _ s1) ?_
        intro layout s2 _
        by_cases hu : layout.isUnsized = true
        · rw [if_pos hu]; trivial
        · rw [if_neg hu]; exact quietR_write_scalar _ dest s2
  | Cast k operand castTy =>
    cases s1.stack.getLast? with
    | none => trivial
    | some fr =>
      dsimp only
      by_cases hd : s1.debugAssertions = true ∧ monomorphize castTy fr.substs ≠ dest.layout.ty
      · rw [if_pos hd]; trivial
      · rw [if_neg hd]
        refine quietR_andThen (quietR_eval_operand operand none s1) ?_
        intro src s2 _
        exact quietR_cast_op src k dest s2
  | Discriminant place2 =>
    refine quietR_andThen (quietR_eval_place place2 s1) ?_
    intro p s2 _
    exact quietR_of_quiet (quiet_emit s2 .readDiscr rfl) (quietR_write_scalar _ dest _)

theorem quietR_statementDispatch (k : StatementKind) (s : EvalState) :
    quietR s (statementDispatch k s) := by
  unfold statementDispatch
  cases k with
  | Assign place rvalue => exact quietR_eval_rvalue_into_place rvalue place s
  | SetDiscriminant place variantIndex =>
    refine quietR_andThen (quietR_eval_place place s) ?_
    intro dest s1 _
    exact quietR_write_discriminant_value variantIndex dest s1
  | StorageLive l =>
    refine quietR_andThen (quietR_storage_live l s) ?_
    intro _ s1 _
    exact quietR_deallocate_local s1
  | StorageDead l =>
    exact quietR_of_quiet (quiet_storage_dead l s) (quietR_deallocate_local _)
  | ReadForMatch => exact quiet_refl s
  | Validate op places => exact quietR_runValidation places s
  | EndRegion ce => exact quietR_end_region s
  | UserAssertTy => exact quiet_refl s
  | Nop => exact quiet_refl s
  | InlineAsm => exact quiet_refl s

/-- The loop-detector analysis either fails with NonTerminating or retains
the snapshot; either way the stack and counter are untouched and exactly one
observation event is recorded. -/
theorem observe_cases (s : EvalState) :
    (∃ s2, observe_and_analyze s = .err .nonTerminating s2 ∧ s2.stack = s.stack ∧
      s2.steps_since_detector_enabled = s.steps_since_detector_enabled ∧
      s2.trace = s.trace ++ [Event.observe]) ∨
    (∃ s2, observe_and_analyze s = .ok () s2 ∧ s2.stack = s.stack ∧
      s2.steps_since_detector_enabled = s.steps_since_detector_enabled ∧
      s2.trace = s.trace ++ [Event.observe]) := by
  by_cases hm : ({ machine := s.machine, stack := s.stack, mem := s.mem } : Snapshot)
      ∈ (emit s Event.observe).loop_detector
  · left
    have hobs : observe_and_analyze s = .err .nonTerminating (emit s Event.observe) := by
      simp only [observe_and_analyze, hm, if_true]
    exact ⟨emit s Event.observe, hobs, rfl, rfl, rfl⟩
  · right
    have hobs : observe_and_analyze s = .ok ()
        { emit s Event.observe with loop_detector := (emit s Event.observe).loop_detector ++
            [{ machine := s.machine, stack := s.stack, mem := s.mem }] } := by
      simp only [observe_and_analyze, hm, if_false]
    exact ⟨_, hobs, rfl, rfl, rfl⟩

/-- The loop-detector gate never executes instructions and never touches the
frame stack: any non-abort outcome keeps the stack and appends only
diagnostic events. -/
theorem detect_phase_cases (s : EvalState) :
    (∃ s1, detect_phase s = .ok () s1 ∧ s1.stack = s.stack ∧
      s1.steps_since_detector_enabled = s.steps_since_detector_enabled ∧
      ∃ ev, s1.trace = s.trace ++ ev ∧ ev.countP isInstrEv = 0) ∨
    (∃ s1, detect_phase s = .err .nonTerminating s1 ∧ s1.stack = s.stack ∧
      s1.steps_since_detector_enabled = s.steps_since_detector_enabled ∧
      ∃ ev, s1.trace = s.trace ++ ev ∧ ev.countP isInstrEv = 0) ∨
    detect_phase s = .abort := by
  unfold detect_phase
  by_cases he : s.loop_detector.isEmpty = true
  · rw [if_pos he]
    cases hL : s.stack.getLast? with
    | none => right; right; rfl
    | some fr =>
      rcases observe_cases (emit s (Event.warnSlow fr.span)) with
        ⟨s2, hobs, hst, hsteps, htr⟩ | ⟨s2, hobs, hst, hsteps, htr⟩
      · right; left
        refine ⟨s2, hobs, hst, hsteps, ⟨[Event.warnSlow fr.span, Event.observe], ?_, rfl⟩⟩
        rw [htr]; simp [emit]
      · left
        refine ⟨s2, hobs, hst, hsteps, ⟨[Event.warnSlow fr.span, Event.observe], ?_, rfl⟩⟩
        rw [htr]; simp [emit]
  · rw [if_neg he]
    rcases observe_cases s with ⟨s2, hobs, hst, hsteps, htr⟩ | ⟨s2, hobs, hst, hsteps, htr⟩
    · right; left
      exact ⟨s2, hobs, hst, hsteps, ⟨[Event.observe], htr, rfl⟩⟩
    · left
      exact ⟨s2, hobs, hst, hsteps, ⟨[Event.observe], htr, rfl⟩⟩

/-- The loop-detector gate never executes instructions and never touches the
frame stack: any non-abort outcome keeps the stack and appends only
diagnostic events. -/
theorem inc_cases (s : EvalState) :
    (∃ s1, inc_step_counter_and_detect_loops s = .ok () s1 ∧ s1.stack = s.stack ∧
      ∃ ev, s1.trace = s.trace ++ ev ∧ ev.countP isInstrEv = 0) ∨
    (∃ s1, inc_step_counter_and_detect_loops s = .err .nonTerminating s1 ∧ s1.stack = s.stack ∧
      ∃ ev, s1.trace = s.trace ++ ev ∧ ev.countP isInstrEv = 0) ∨
    inc_step_counter_and_detect_loops s = .abort := by
  unfold inc_step_counter_and_detect_loops
  dsimp only
  by_cases hneg : s.steps_since_detector_enabled + 1 < 0
  · rw [if_pos hneg]
    left
    exact ⟨_, rfl, rfl, ⟨[], (List.append_nil _).symm, rfl⟩⟩
  · rw [if_neg hneg]
    by_cases hz : Int.tmod (s.steps_since_detector_enabled + 1) DETECTOR_SNAPSHOT_PERIOD ≠ 0
    · rw [if_pos hz]
      left
      exact ⟨_, rfl, rfl, ⟨[], (List.append_nil _).symm, rfl⟩⟩
    · rw [if_neg hz]
      rcases detect_phase_cases { s with steps_since_detector_enabled := Int.tmod (s.steps_since_detector_enabled + 1) DETECTOR_SNAPSHOT_PERIOD } with
        ⟨s1, hp, hst, _, hev⟩ | ⟨s1, hp, hst, _, hev⟩ | hp
      · left; exact ⟨s1, hp, hst, hev⟩
      · right; left; exact ⟨s1, hp, hst, hev⟩
      · right; right; exact hp

/-- The external control-flow evaluator always succeeds in this model and
never touches the trace. -/
theorem eval_terminator_ok (t : Terminator) (s : EvalState) :
    ∃ s2, eval_terminator t s = .ok () s2 ∧ s2.trace = s.trace := by
  unfold eval_terminator
  cases t.effect with
  | goto b => exact ⟨_, rfl, rfl⟩
  | ret => exact ⟨_, rfl, rfl⟩

/-- A successful terminator dispatch records exactly one more instruction
execution. -/
theorem terminator_ok_instrCount (t : Terminator) (s : EvalState) :
    ∀ s2, terminator t s = .ok () s2 → instrCount s2.trace = instrCount s.trace + 1 := by
  intro s2 h
  unfold terminator at h
  dsimp only at h
  obtain ⟨s3, h3, htr⟩ := eval_terminator_ok t
    { s with tcxSpan := t.span, memSpan := t.span, trace := s.trace ++ [Event.execTerm] }
  rw [h3] at h
  have hs : s3 = s2 := by cases h; rfl
  subst hs
  rw [instrCount, instrCount, htr]
  simp [List.countP_append, isInstrEv]

/-- A successful statement execution records exactly one more instruction
execution. -/
theorem statement_ok_instrCount (st : Statement) (s : EvalState) :
    ∀ s2, statement st s = .ok () s2 → instrCount s2.trace = instrCount s.trace + 1 := by
  intro s2 h
  unfold statement at h
  dsimp only at h
  have hq := quietR_statementDispatch st.kind
    { s with tcxSpan := st.span, memSpan := st.span, trace := s.trace ++ [Event.execStmt] }
  cases hd : statementDispatch st.kind
      { s with tcxSpan := st.span, memSpan := st.span,
               trace := s.trace ++ [Event.execStmt] } with
  | ok a s3 =>
    rw [hd] at h hq
    obtain ⟨_, ⟨ev, htr, hc⟩⟩ := hq
    have hs : s2 = { s3 with stack := listModify bumpStmt (cur_frame s) s3.stack } := by
      cases h; rfl
    subst hs
    show instrCount s3.trace = instrCount s.trace + 1
    rw [instrCount, instrCount, htr]
    simp [List.countP_append, isInstrEv, hc]
  | err e s3 => rw [hd] at h; cases h
  | abort => rw [hd] at h; cases h

/-- On the statement path the step driver is exactly the statement executor
with its success mapped to true: the assertion between the two pre-dispatch
reads of the current-frame index always passes. -/
theorem step_statement_path (s : EvalState) (fr : Frame) (bb : BasicBlock) (st : Statement)
    (h1 : s.stack.getLast? = some fr) (h2 : fr.mir.basicBlocks.get? fr.block = some bb)
    (h3 : bb.statements.get? fr.stmt = some st) :
    step s = toStepResult (statement st s) := by
  have hne : s.stack.isEmpty = false := by
    cases hs : s.stack with
    | nil => rw [hs] at h1; simp at h1
    | cons a l => rfl
  unfold step
  rw [hne]
  simp only [Bool.false_eq_true, if_false]
  rw [h1]
  dsimp only
  rw [h2]
  dsimp only
  rw [h3]
  dsimp only
  simp only [if_true, eq_self_iff_true]
  cases statement st s <;> rfl

/-- On the terminator path the step driver is exactly the loop-detector gate
followed by the terminator dispatcher, with success mapped to true; the
assertion after the gate always passes because the gate keeps the stack. -/
theorem step_terminator_path (s : EvalState) (fr : Frame) (bb : BasicBlock)
    (h1 : s.stack.getLast? = some fr) (h2 : fr.mir.basicBlocks.get? fr.block = some bb)
    (h3 : bb.statements.get? fr.stmt = none) :
    step s = toStepResult ((inc_step_counter_and_detect_loops s).andThen
      (fun _ s1 => terminator bb.terminator s1)) := by
  have hne : s.stack.isEmpty = false := by
    cases hs : s.stack with
    | nil => rw [hs] at h1; simp at h1
    | cons a l => rfl
  unfold step
  rw [hne]
  simp only [Bool.false_eq_true, if_false]
  rw [h1]
  dsimp only
  rw [h2]
  dsimp only
  rw [h3]
  dsimp only
  rcases inc_cases s with ⟨s1, hok, hstack, _⟩ | ⟨s1, herr, hstack, _⟩ | habort
  · rw [hok]
    dsimp only [MResult.andThen]
    have hcf : cur_frame s = cur_frame s1 := by unfold cur_frame; rw [hstack]
    rw [if_pos hcf]
    cases terminator bb.terminator s1 <;> rfl
  · rw [herr]; rfl
  · rw [habort]; rfl

/-- Claim C1: with an empty frame stack, step returns false and mutates
nothing; when a non-branching instruction exists at the current frame's
instruction index, step is exactly that statement's execution mapped to
true, recording exactly one instruction; otherwise step is the loop-detector
gate followed by the block's terminator mapped to true, again recording
exactly one instruction — never more, never zero on a non-empty stack. -/
theorem c1_step_single_unit (s : EvalState) :
    (s.stack = [] → step s = .ok false s) ∧
    (∀ fr bb st, s.stack.getLast? = some fr →
      fr.mir.basicBlocks.get? fr.block = some bb →
      bb.statements.get? fr.stmt = some st →
      step s = toStepResult (statement st s) ∧
      ∀ s2, statement st s = .ok () s2 →
        instrCount s2.trace = instrCount s.trace + 1) ∧
    (∀ fr bb, s.stack.getLast? = some fr →
      fr.mir.basicBlocks.get? fr.block = some bb →
      bb.statements.get? fr.stmt = none →
      step s = toStepResult ((inc_step_counter_and_detect_loops s).andThen
        (fun _ s1 => terminator bb.terminator s1)) ∧
      ∀ s2, ((inc_step_counter_and_detect_loops s).andThen
        (fun _ s1 => terminator bb.terminator s1)) = .ok () s2 →
        instrCount s2.trace = instrCount s.trace + 1) := by
  refine ⟨?_, ?_, ?_⟩
  · intro h
    unfold step
    rw [h]
    rfl
  · intro fr bb st h1 h2 h3
    exact ⟨step_statement_path s fr bb st h1 h2 h3, statement_ok_instrCount st s⟩
  · intro fr bb h1 h2 h3
    refine ⟨step_terminator_path s fr bb h1 h2 h3, ?_⟩
    intro s2 h
    cases hinc : inc_step_counter_and_detect_loops s with
    | ok a s1 =>
      cases a
      rw [hinc] at h
      dsimp only [MResult.andThen] at h
      have h4 := terminator_ok_instrCount bb.terminator s1 s2 h
      rcases inc_cases s with ⟨s1x, hok, _, ⟨ev, htr, hc⟩⟩ | ⟨s1x, herr, _, _⟩ | habort
      · rw [hinc] at hok
        cases hok
        rw [h4, instrCount, instrCount, htr]
        simp [List.countP_append, hc]
      · rw [hinc] at herr; cases herr
      · rw [hinc] at habort; cases habort
    | err e s1 =>
      rw [hinc] at h
      dsimp only [MResult.andThen] at h
      cases h
    | abort =>
      rw [hinc] at h
      dsimp only [MResult.andThen] at h
      cases h

/-- Witness for C1 at concrete states: the empty-stack run and the
statement-path run. -/
theorem c1_step_single_unit_witness :
    step baseSt = .ok false baseSt ∧ step stNop = toStepResult (statement nopStmt stNop) := by
  constructor
  · exact (c1_step_single_unit baseSt).1 rfl
  · exact ((c1_step_single_unit stNop).2.1 frNop bbNop nopStmt rfl rfl rfl).1

/-- Claim C7: an inline machine-code statement always fails with the
InlineAsm error (the UnsupportedFeature class of the error taxonomy), and
the resulting state's frame stack — in particular every frame's instruction
index — is exactly the input stack. -/
theorem c7_inline_asm_unsupported (sp : Nat) (s : EvalState) :
    statement { span := sp, kind := .InlineAsm } s =
      .err .inlineAsm { s with tcxSpan := sp, memSpan := sp, trace := s.trace ++ [Event.execStmt] } ∧
    ({ s with tcxSpan := sp, memSpan := sp, trace := s.trace ++ [Event.execStmt] } : EvalState).stack
      = s.stack :=
  ⟨rfl, rfl⟩

/-- Claim C2: the statement executor records the owning frame index before
dispatch; on success exactly the originally recorded frame's instruction
index is advanced by one (frames pushed during dispatch sit above it and are
not advanced); on dispatch failure the error propagates and no original
frame's instruction index changes. -/
theorem c2_statement_frame_advance (st : Statement) (s : EvalState) (hne : s.stack ≠ []) :
    (∀ s2, statementDispatch st.kind { s with tcxSpan := st.span, memSpan := st.span, trace := s.trace ++ [Event.execStmt] } = .ok () s2 →
      statement st s = .ok () { s2 with stack := listModify bumpStmt (cur_frame s) s2.stack } ∧
      (∀ f0, s.stack.get? (cur_frame s) = some f0 →
        (listModify bumpStmt (cur_frame s) s2.stack).get? (cur_frame s) =
          some { f0 with stmt := f0.stmt + 1 }) ∧
      (∀ j, j ≠ cur_frame s →
        (listModify bumpStmt (cur_frame s) s2.stack).get? j = s2.stack.get? j)) ∧
    (∀ e s2, statementDispatch st.kind { s with tcxSpan := st.span, memSpan := st.span, trace := s.trace ++ [Event.execStmt] } = .err e s2 →
      statement st s = .err e s2 ∧
      (∀ i, i < s.stack.length → s2.stack.get? i = s.stack.get? i)) := by
  have hlen : cur_frame s < s.stack.length := by
    unfold cur_frame
    cases hs : s.stack with
    | nil => exact absurd hs hne
    | cons a l => simp
  constructor
  · intro s2 hd
    have hq := quietR_statementDispatch st.kind
      { s with tcxSpan := st.span, memSpan := st.span, trace := s.trace ++ [Event.execStmt] }
    rw [hd] at hq
    obtain ⟨⟨ps, hstack⟩, _⟩ := hq
    have hget : s2.stack.get? (cur_frame s) = s.stack.get? (cur_frame s) := by
      rw [hstack]
      exact List.get?_append hlen
    refine ⟨?_, ?_, ?_⟩
    · unfold statement
      dsimp only
      rw [hd]
    · intro f0 hf0
      rw [listModify_get_self, hget, hf0]
      rfl
    · intro j hj
      exact listModify_get_ne bumpStmt (cur_frame s) j s2.stack hj
  · intro e s2 hd
    have hq := quietR_statementDispatch st.kind
      { s with tcxSpan := st.span, memSpan := st.span, trace := s.trace ++ [Event.execStmt] }
    rw [hd] at hq
    obtain ⟨⟨ps, hstack⟩, _⟩ := hq
    constructor
    · unfold statement
      dsimp only
      rw [hd]
    · intro i hi
      rw [hstack]
      exact List.get?_append hi

/-- Witness for C2 at a concrete state: executing the no-op statement
advances frame 0's instruction index from 0 to 1. -/
theorem c2_statement_frame_advance_witness :
    statement nopStmt stNop = .ok () stNopAfter ∧
    stNopAfter.stack.get? 0 = some { frNop with stmt := 1 } := by
  constructor
  · have h := ((c2_statement_frame_advance nopStmt stNop (by decide)).1 _ rfl).1
    exact h.trans (by decide)
  · decide

/-- Claim C8 counterexample: a step on the single non-branching-instruction
path that executes a frame-pushing (heap-allocation) statement returns Ok
true — no assertion fires — while the frame-stack depth after execution is
one more than before: the assertion does not compare post-execution depth
with pre-execution depth. -/
theorem c8_counterexample :
    step c8state = .ok true c8after ∧
    c8state.stack.length = 1 ∧ c8after.stack.length = 2 := by
  refine ⟨by decide, by decide, by decide⟩

/-- Claim C8 (amended): the assertion on the statement path compares the
frame depth recorded at entry with the depth re-read immediately before
dispatch — both reads precede execution, so it always passes and step is
exactly the statement's execution mapped to true; the depth after a
successful statement-path execution is merely bounded below by the depth
before (it grows when the statement pushes frames). -/
theorem c8_assert_pre_dispatch (s : EvalState) (fr : Frame) (bb : BasicBlock) (st : Statement)
    (h1 : s.stack.getLast? = some fr) (h2 : fr.mir.basicBlocks.get? fr.block = some bb)
    (h3 : bb.statements.get? fr.stmt = some st) :
    step s = toStepResult (statement st s) ∧
    (∀ s2, statement st s = .ok () s2 → s.stack.length ≤ s2.stack.length) := by
  refine ⟨step_statement_path s fr bb st h1 h2 h3, ?_⟩
  intro s2 h
  unfold statement at h
  dsimp only at h
  have hq := quietR_statementDispatch st.kind
    { s with tcxSpan := st.span, memSpan := st.span, trace := s.trace ++ [Event.execStmt] }
  cases hd : statementDispatch st.kind { s with tcxSpan := st.span, memSpan := st.span, trace := s.trace ++ [Event.execStmt] } with
  | ok a s3 =>
    rw [hd] at h hq
    obtain ⟨⟨ps, hstack⟩, _⟩ := hq
    cases h
    show s.stack.length ≤ (listModify bumpStmt (cur_frame s) s3.stack).length
    rw [listModify_length, hstack]
    simp [List.length_append]
  | err e s3 => rw [hd] at h; cases h
  | abort => rw [hd] at h; cases h

/-- Witness for the amended C8 at a concrete state. -/
theorem c8_assert_pre_dispatch_witness :
    step stNop = toStepResult (statement nopStmt stNop) :=
  (c8_assert_pre_dispatch stNop frNop bbNop nopStmt rfl rfl rfl).1

/-- Truncated remainder against the detection period, on a machine counter
that is a nonnegative integer, is the Nat remainder. -/
theorem tmod_period (a : Nat) :
    Int.tmod (a : Int) DETECTOR_SNAPSHOT_PERIOD = ((a % 256 : Nat) : Int) := rfl

/-- The reduced counter of a nonnegative increment lies in [0, 256). -/
theorem tmod_period_bounds (a : Int) (h : 0 ≤ a) :
    0 ≤ Int.tmod a DETECTOR_SNAPSHOT_PERIOD ∧ Int.tmod a DETECTOR_SNAPSHOT_PERIOD < 256 := by
  obtain ⟨n, hn⟩ := Int.eq_ofNat_of_zero_le h
  subst hn
  rw [tmod_period]
  constructor
  · exact Int.natCast_nonneg _
  · have h2 := Nat.mod_lt n (show 0 < 256 by decide)
    omega

/-- Running the gate repeatedly from a nonnegative counter staying below the
period just counts up: no detection, no other state change. -/
theorem incIter_run : ∀ (k c : Nat) (s : EvalState),
    s.steps_since_detector_enabled = (c : Int) → c + k < 256 →
    incIter k s = .ok () { s with steps_since_detector_enabled := ((c + k : Nat) : Int) } := by
  intro k
  induction k with
  | zero =>
    intro c s hc _
    show MResult.ok () s = MResult.ok () { s with steps_since_detector_enabled := ((c + 0 : Nat) : Int) }
    rw [show ((c + 0 : Nat) : Int) = s.steps_since_detector_enabled from by rw [hc]; omega]
  | succ k ih =>
    intro c s hc hlt
    have h1 : inc_step_counter_and_detect_loops s =
        .ok () { s with steps_since_detector_enabled := ((c + 1 : Nat) : Int) } := by
      unfold inc_step_counter_and_detect_loops
      dsimp only
      rw [hc]
      rw [if_neg (show ¬ ((c : Int) + 1 < 0) by omega)]
      have htm : Int.tmod ((c : Int) + 1) DETECTOR_SNAPSHOT_PERIOD = ((c + 1 : Nat) : Int) := by
        rw [show ((c : Int) + 1) = ((c + 1 : Nat) : Int) from by omega, tmod_period,
          Nat.mod_eq_of_lt (by omega)]
      rw [htm]
      rw [if_pos (show ((c + 1 : Nat) : Int) ≠ 0 by omega)]
    rw [incIter, h1]
    dsimp only
    rw [ih (c + 1) { s with steps_since_detector_enabled := ((c + 1 : Nat) : Int) } rfl (by omega)]
    rw [show ((c + 1 + k : Nat) : Int) = ((c + (k + 1) : Nat) : Int) from by omega]

/-- Claim C3: each gate call increments the step counter by one; a negative
result returns Ok immediately with no detection work (state otherwise
untouched); otherwise the counter is reduced modulo the period 256 and the
detection phase runs exactly when the remainder is zero — so starting from
a counter of zero, no detection occurs during the first 255
terminator-boundary steps. -/
theorem c3_detector_gating (s : EvalState) :
    (s.steps_since_detector_enabled + 1 < 0 →
      inc_step_counter_and_detect_loops s =
        .ok () { s with steps_since_detector_enabled := s.steps_since_detector_enabled + 1 }) ∧
    (0 ≤ s.steps_since_detector_enabled + 1 →
      Int.tmod (s.steps_since_detector_enabled + 1) DETECTOR_SNAPSHOT_PERIOD ≠ 0 →
      inc_step_counter_and_detect_loops s =
        .ok () { s with steps_since_detector_enabled := Int.tmod (s.steps_since_detector_enabled + 1) DETECTOR_SNAPSHOT_PERIOD }) ∧
    (0 ≤ s.steps_since_detector_enabled + 1 →
      Int.tmod (s.steps_since_detector_enabled + 1) DETECTOR_SNAPSHOT_PERIOD = 0 →
      inc_step_counter_and_detect_loops s =
        detect_phase { s with steps_since_detector_enabled := Int.tmod (s.steps_since_detector_enabled + 1) DETECTOR_SNAPSHOT_PERIOD }) ∧
    (∀ k, s.steps_since_detector_enabled = 0 → k < 256 →
      incIter k s = .ok () { s with steps_since_detector_enabled := (k : Int) }) := by
  refine ⟨?_, ?_, ?_, ?_⟩
  · intro h
    unfold inc_step_counter_and_detect_loops
    dsimp only
    rw [if_pos h]
  · intro h1 h2
    unfold inc_step_counter_and_detect_loops
    dsimp only
    rw [if_neg (by omega), if_pos h2]
  · intro h1 h2
    unfold inc_step_counter_and_detect_loops
    dsimp only
    rw [if_neg (by omega), if_neg (fun hx => hx h2)]
  · intro k hc hk
    have h := incIter_run k 0 s (by rw [hc]; rfl) (by omega)
    simpa using h

/-- Witness for C3 at concrete states: a non-detection call from counter 5,
and ten quiet iterations from counter 0. -/
theorem c3_detector_gating_witness :
    inc_step_counter_and_detect_loops c3s = .ok () { c3s with steps_since_detector_enabled := 6 } ∧
    incIter 10 { c3s with steps_since_detector_enabled := 0 } =
      .ok () { c3s with steps_since_detector_enabled := 10 } := by
  constructor
  · have h := (c3_detector_gating c3s).2.1 (by decide) (by decide)
    exact h.trans (by decide)
  · have h := (c3_detector_gating { c3s with steps_since_detector_enabled := 0 }).2.2.2 10 rfl
      (by decide)
    exact h.trans (by decide)

/-- Claim C10: an entry counter of exactly −1 becomes 0, passes the sentinel
check and the modulo test, and the detection phase runs on that very call;
the sentinel only suppresses detection for entry values −2 and below; and
every call whose returned counter is non-negative leaves it in [0, 256). -/
theorem c10_sentinel_boundary (s : EvalState) :
    (s.steps_since_detector_enabled = -1 →
      inc_step_counter_and_detect_loops s =
        detect_phase { s with steps_since_detector_enabled := 0 }) ∧
    (s.steps_since_detector_enabled ≤ -2 →
      inc_step_counter_and_detect_loops s =
        .ok () { s with steps_since_detector_enabled := s.steps_since_detector_enabled + 1 }) ∧
    (∀ s2, (inc_step_counter_and_detect_loops s).state? = some s2 →
      0 ≤ s2.steps_since_detector_enabled → s2.steps_since_detector_enabled < 256) := by
  refine ⟨?_, ?_, ?_⟩
  · intro h
    unfold inc_step_counter_and_detect_loops
    dsimp only
    rw [h]
    rw [if_neg (by decide)]
    rw [if_neg (by decide)]
    rw [show Int.tmod (-1 + 1) DETECTOR_SNAPSHOT_PERIOD = 0 from by decide]
  · intro h
    unfold inc_step_counter_and_detect_loops
    dsimp only
    rw [if_pos (by omega)]
  · intro s2 h h0
    unfold inc_step_counter_and_detect_loops at h
    dsimp only at h
    by_cases hneg : s.steps_since_detector_enabled + 1 < 0
    · rw [if_pos hneg] at h
      simp only [MResult.state?, Option.some.injEq] at h
      subst h
      simp only at h0
      omega
    · rw [if_neg hneg] at h
      obtain ⟨hlo, hhi⟩ := tmod_period_bounds (s.steps_since_detector_enabled + 1) (by omega)
      by_cases hz : Int.tmod (s.steps_since_detector_enabled + 1) DETECTOR_SNAPSHOT_PERIOD ≠ 0
      · rw [if_pos hz] at h
        simp only [MResult.state?, Option.some.injEq] at h
        subst h
        exact hhi
      · rw [if_neg hz] at h
        rcases detect_phase_cases { s with steps_since_detector_enabled := Int.tmod (s.steps_since_detector_enabled + 1) DETECTOR_SNAPSHOT_PERIOD } with
          ⟨s1, hp, _, hsteps, _⟩ | ⟨s1, hp, _, hsteps, _⟩ | hp
        · rw [hp] at h
          simp only [MResult.state?, Option.some.injEq] at h
          subst h
          rw [hsteps]
          exact hhi
        · rw [hp] at h
          simp only [MResult.state?, Option.some.injEq] at h
          subst h
          rw [hsteps]
          exact hhi
        · rw [hp] at h
          simp [MResult.state?] at h

/-- Witness for C10 at concrete states: the −1 boundary triggers the
detection phase, and the counter returned there is below the period. -/
theorem c10_sentinel_boundary_witness :
    inc_step_counter_and_detect_loops c10s =
      detect_phase { c10s with steps_since_detector_enabled := 0 } ∧
    c10after.steps_since_detector_enabled < 256 := by
  constructor
  · exact (c10_sentinel_boundary c10s).1 rfl
  · exact (c10_sentinel_boundary c10s).2.2 c10after (by decide) (by decide)

/-- The Repeat run with element count 0: the operand is still resolved
(exactly once) but nothing is written. -/
theorem repeat_run_zero (op : Operand) (cnt : Nat) (place : Place) (s : EvalState)
    (h0 : place.layout.elems = 0) :
    eval_rvalue_into_place (.Repeat op cnt) place s =
      .ok () { s with trace := s.trace ++ [Event.evalPlace, Event.evalOperand, Event.forceAlloc, Event.dumpPlace] } := by
  unfold eval_rvalue_into_place
  simp only [eval_place, MResult.andThen, eval_operand, force_allocation, Place.len, h0,
    dump_place, emit, gt_iff_lt, Nat.lt_irrefl, if_false, List.append_assoc]
  rfl

/-- The Repeat run with element count 1: exactly one copy of the evaluated
source is written into the first element. -/
theorem repeat_run_one (op : Operand) (cnt : Nat) (place : Place) (s : EvalState)
    (h0 : place.layout.elems = 1) :
    eval_rvalue_into_place (.Repeat op cnt) place s =
      .ok () { s with
          mem := writeBytes s.mem place.addr op.bytes,
          trace := s.trace ++ [Event.evalPlace, Event.evalOperand, Event.forceAlloc, Event.copyOp place.addr op.bytes, Event.dumpPlace] } := by
  unfold eval_rvalue_into_place
  simp only [eval_place, MResult.andThen, eval_operand, force_allocation, Place.len, h0,
    mplace_field, copy_op, dump_place, emit, Option.getD, Nat.zero_mul, Nat.add_zero,
    gt_iff_lt, Nat.lt_irrefl, if_false, Nat.zero_lt_one, if_true, List.append_assoc]
  rfl

/-- The Repeat run with element count n + 2: the first element is written,
then its bytes are replicated over the remaining n + 1 slots by the
overlap-safe repeated copy. -/
theorem repeat_run_many (op : Operand) (cnt : Nat) (place : Place) (s : EvalState) (n : Nat)
    (h0 : place.layout.elems = n + 2) :
    eval_rvalue_into_place (.Repeat op cnt) place s =
      .ok () { s with
          mem := copyBlock (writeBytes s.mem place.addr op.bytes) (readBytes (writeBytes s.mem place.addr op.bytes) place.addr place.layout.elemSize) (place.addr + place.layout.elemSize) (n + 1),
          trace := s.trace ++ [Event.evalPlace, Event.evalOperand, Event.forceAlloc, Event.copyOp place.addr op.bytes, Event.copyRepeat place.addr (place.addr + place.layout.elemSize) place.layout.elemSize (n + 1), Event.dumpPlace] } := by
  unfold eval_rvalue_into_place
  simp only [eval_place, MResult.andThen, eval_operand, force_allocation, Place.len, h0,
    mplace_field, copy_op, copy_repeatedly, dump_place, emit, Option.getD, Layout.elemView,
    Nat.zero_mul, Nat.add_zero, List.append_assoc]
  rw [if_pos (by omega), if_pos (by omega)]
  simp only [Nat.add_sub_cancel, List.append_assoc]
  rfl

/-- Claim C4: a Repeat (array fill) evaluation resolves the source operand
exactly once; an element count of 0 writes nothing to the destination; a
count of 1 writes exactly one copy of the evaluated source into the first
element; a count n + 2 writes the first element and replicates its bytes
across the remaining n + 1 slots with the overlap-safe repeated copy; and,
for an in-range destination with matching element size, every one of the n
element slots ends up byte-identical to the evaluated source. -/
theorem c4_repeat_fill (op : Operand) (cnt : Nat) (place : Place) (s : EvalState)
    (hbytes : op.bytes.length = place.layout.elemSize)
    (hrange : place.addr + place.layout.elems * place.layout.elemSize ≤ s.mem.length) :
    (place.layout.elems = 0 →
      eval_rvalue_into_place (.Repeat op cnt) place s =
        .ok () { s with trace := s.trace ++ [Event.evalPlace, Event.evalOperand, Event.forceAlloc, Event.dumpPlace] }) ∧
    (place.layout.elems = 1 →
      eval_rvalue_into_place (.Repeat op cnt) place s =
        .ok () { s with
            mem := writeBytes s.mem place.addr op.bytes,
            trace := s.trace ++ [Event.evalPlace, Event.evalOperand, Event.forceAlloc, Event.copyOp place.addr op.bytes, Event.dumpPlace] }) ∧
    (∀ n, place.layout.elems = n + 2 →
      eval_rvalue_into_place (.Repeat op cnt) place s =
        .ok () { s with
            mem := copyBlock (writeBytes s.mem place.addr op.bytes) (readBytes (writeBytes s.mem place.addr op.bytes) place.addr place.layout.elemSize) (place.addr + place.layout.elemSize) (n + 1),
            trace := s.trace ++ [Event.evalPlace, Event.evalOperand, Event.forceAlloc, Event.copyOp place.addr op.bytes, Event.copyRepeat place.addr (place.addr + place.layout.elemSize) place.layout.elemSize (n + 1), Event.dumpPlace] }) ∧
    (∀ s2, eval_rvalue_into_place (.Repeat op cnt) place s = .ok () s2 →
      ∀ i, i < place.layout.elems →
        readBytes s2.mem (place.addr + i * place.layout.elemSize) place.layout.elemSize
          = op.bytes) := by
  refine ⟨repeat_run_zero op cnt place s, repeat_run_one op cnt place s,
    fun n => repeat_run_many op cnt place s n, ?_⟩
  intro s2 h i hi
  rcases hn : place.layout.elems with _ | m
  · rw [hn] at hi; omega
  · rcases hm : m with _ | n
    · rw [hm] at hn
      rw [repeat_run_one op cnt place s hn] at h
      cases h
      rw [hn] at hi
      have hi0 : i = 0 := by omega
      subst hi0
      rw [Nat.zero_mul, Nat.add_zero, ← hbytes]
      apply readBytes_writeBytes
      rw [hn, Nat.one_mul, ← hbytes] at hrange
      exact hrange
    · rw [hm] at hn
      rw [repeat_run_many op cnt place s n hn] at h
      cases h
      rw [hn, Nat.succ_mul] at hrange
      have hL1 : place.addr + place.layout.elemSize ≤ s.mem.length := by omega
      have hblk : readBytes (writeBytes s.mem place.addr op.bytes) place.addr
          place.layout.elemSize = op.bytes := by
        rw [← hbytes]
        apply readBytes_writeBytes
        rw [hbytes]
        exact hL1
      rw [hblk]
      have hmlen : (writeBytes s.mem place.addr op.bytes).length = s.mem.length :=
        writeBytes_length op.bytes s.mem place.addr
      cases i with
      | zero =>
        dsimp only
        simp only [Nat.zero_mul, Nat.add_zero]
        have hx : readBytes (copyBlock (writeBytes s.mem place.addr op.bytes) op.bytes
            (place.addr + place.layout.elemSize) (n + 1)) place.addr place.layout.elemSize =
            readBytes (writeBytes s.mem place.addr op.bytes) place.addr place.layout.elemSize :=
          readBytes_ext _ _ place.layout.elemSize place.addr
            (fun p hp1 hp2 => copyBlock_getD_below op.bytes (n + 1) _ _ p (by omega))
        rw [hx]
        exact hblk
      | succ j =>
        dsimp only
        rw [hn] at hi
        rw [show place.addr + (j + 1) * place.layout.elemSize =
          place.addr + place.layout.elemSize + j * place.layout.elemSize by ring, ← hbytes]
        apply copyBlock_slots op.bytes (n + 1) _ _ _ j (by omega)
        rw [hmlen, hbytes]
        omega

/-- Witness for C4 at a concrete run: filling a 3-element array of 2-byte
elements leaves every slot byte-identical to the source. -/
theorem c4_repeat_fill_witness :
    eval_rvalue_into_place (.Repeat c4op 3) c4dest stNop = .ok () c4after ∧
    readBytes c4after.mem (c4dest.addr + 2 * c4dest.layout.elemSize) c4dest.layout.elemSize
      = c4op.bytes := by
  have hc := c4_repeat_fill c4op 3 c4dest stNop (by decide) (by decide)
  have h1 : eval_rvalue_into_place (.Repeat c4op 3) c4dest stNop = .ok () c4after :=
    (hc.2.2.1 1 rfl).trans (by decide)
  exact ⟨h1, hc.2.2.2 c4after h1 2 (by decide)⟩

/-- Index-getD agreement within bounds. -/
theorem get?_getD (l : List Nat) : ∀ n, n < l.length → l.get? n = some (l.getD n 0) := by
  induction l with
  | nil => intro n h; simp at h
  | cons a as ih =>
    intro n h
    cases n with
    | zero => rfl
    | succ n => exact ih n (by simpa using h)

/-- The aggregate field loop: with every needed field offset in range, it
succeeds, writing exactly the per-field memory effects and recording exactly
the per-field events, in declaration order. -/
theorem evalAggFields_run (dest : Place) (active : Option Nat) :
    ∀ (ops : List Operand) (i : Nat) (s : EvalState),
    (∀ j op2, ops.get? j = some op2 → op2.layout.is_zst = false →
      active.getD (i + j) < dest.layout.fieldOffsets.length) →
    evalAggFields dest active ops i s =
      .ok () { s with
          mem := fieldsMem dest.addr dest.layout.fieldOffsets active i ops s.mem,
          trace := s.trace ++ fieldsEvents dest.addr dest.layout.fieldOffsets active i ops } := by
  intro ops
  induction ops with
  | nil =>
    intro i s h
    show MResult.ok () s = _
    rw [fieldsMem, fieldsEvents, List.append_nil]
  | cons op rest ih =>
    intro i s h
    rw [evalAggFields]
    dsimp only [eval_operand, MResult.andThen]
    simp only [Option.getD_none]
    by_cases hz : op.layout.is_zst = true
    · rw [if_pos hz]
      rw [ih (i + 1) _ (fun j op2 hj hz2 => by
        have := h (j + 1) op2 hj hz2
        rwa [show i + (j + 1) = i + 1 + j by omega] at this)]
      simp [fieldsMem, fieldsEvents, fieldEvents, hz, emit, List.append_assoc]
    · rw [if_neg hz]
      have hidx : active.getD i < dest.layout.fieldOffsets.length := by
        have := h 0 op rfl (by simpa using hz)
        simpa using this
      have hoff := get?_getD dest.layout.fieldOffsets (active.getD i) hidx
      rw [place_field, hoff]
      dsimp only [copy_op]
      rw [ih (i + 1) _ (fun j op2 hj hz2 => by
        have := h (j + 1) op2 hj hz2
        rwa [show i + (j + 1) = i + 1 + j by omega] at this)]
      simp [fieldsMem, fieldsEvents, fieldEvents, hz, emit, List.append_assoc]

/-- The full Aggregate run for an algebraic data type: resolve the
destination, write the tag (sum types only), narrow to the variant (sum
types only), then run the field loop over the selected offsets. -/
theorem aggregate_run (adtIsEnum : Bool) (v : Nat) (active : Option Nat)
    (ops : List Operand) (pl : Place) (s : EvalState)
    (hTie : adtIsEnum = pl.layout.isEnum)
    (hRange : ∀ j op2, ops.get? j = some op2 → op2.layout.is_zst = false →
      active.getD j < (aggOffsets pl adtIsEnum v).length) :
    eval_rvalue_into_place (.Aggregate (.Adt adtIsEnum v active) ops) pl s =
      .ok () { s with
          mem := fieldsMem pl.addr (aggOffsets pl adtIsEnum v) active 0 ops (tagMem pl adtIsEnum v s.mem),
          trace := s.trace ++ [Event.evalPlace] ++ (if adtIsEnum then [Event.writeTag v pl.addr] else []) ++ fieldsEvents pl.addr (aggOffsets pl adtIsEnum v) active 0 ops ++ [Event.dumpPlace] } := by
  cases adtIsEnum with
  | true =>
    have hE : pl.layout.isEnum = true := hTie.symm
    unfold eval_rvalue_into_place
    dsimp only [eval_place, MResult.andThen, write_discriminant_value]
    rw [if_pos hE, if_pos rfl]
    dsimp only [place_downcast, MResult.andThen]
    rw [evalAggFields_run _ active ops 0 _ (fun j op2 hj hz2 => by
      have := hRange j op2 hj hz2
      simpa [aggOffsets] using this)]
    simp [dump_place, emit, tagMem, aggOffsets, List.append_assoc]
  | false =>
    have hE : pl.layout.isEnum = false := hTie.symm
    unfold eval_rvalue_into_place
    dsimp only [eval_place, MResult.andThen, write_discriminant_value]
    rw [if_neg (by rw [hE]; exact Bool.false_ne_true)]
    dsimp only
    simp only [Bool.false_eq_true, if_false]
    rw [evalAggFields_run _ active ops 0 _ (fun j op2 hj hz2 => by
      have := hRange j op2 hj hz2
      simpa [aggOffsets] using this)]
    simp [dump_place, emit, tagMem, aggOffsets, hE, List.append_assoc]

/-- Claim C5: aggregate construction over an algebraic sum type writes the
selected variant's tag into the destination before any field is written and
then narrows the destination to that variant's field offsets; a non-sum
destination is used as-is with its own offsets and receives no tag; every
zero-sized field contributes only its operand resolution, with no storage
access; every other field is copied to the offset selected by the explicit
active-field index when present, else by its sequential position, in
declaration order. -/
theorem c5_aggregate_construction (adtIsEnum : Bool) (v : Nat) (active : Option Nat)
    (ops : List Operand) (pl : Place) (s : EvalState)
    (hTie : adtIsEnum = pl.layout.isEnum)
    (hRange : ∀ j op2, ops.get? j = some op2 → op2.layout.is_zst = false →
      active.getD j < (aggOffsets pl adtIsEnum v).length) :
    eval_rvalue_into_place (.Aggregate (.Adt adtIsEnum v active) ops) pl s =
      .ok () { s with
          mem := fieldsMem pl.addr (aggOffsets pl adtIsEnum v) active 0 ops (tagMem pl adtIsEnum v s.mem),
          trace := s.trace ++ [Event.evalPlace] ++ (if adtIsEnum then [Event.writeTag v pl.addr] else []) ++ fieldsEvents pl.addr (aggOffsets pl adtIsEnum v) active 0 ops ++ [Event.dumpPlace] } ∧
    (∀ j op2, ops.get? j = some op2 → op2.layout.is_zst = true →
      fieldEvents pl.addr (aggOffsets pl adtIsEnum v) active j op2 = [Event.evalOperand]) ∧
    (∀ j op2, ops.get? j = some op2 → op2.layout.is_zst = false →
      fieldEvents pl.addr (aggOffsets pl adtIsEnum v) active j op2 =
        [Event.evalOperand, Event.copyOp (pl.addr + (aggOffsets pl adtIsEnum v).getD (active.getD j) 0) op2.bytes]) := by
  refine ⟨aggregate_run adtIsEnum v active ops pl s hTie hRange, ?_, ?_⟩
  · intro j op2 _ hz
    simp [fieldEvents, hz]
  · intro j op2 _ hz
    simp [fieldEvents, hz]

/-- Witness for C5 at a concrete run: constructing variant 1 of a 2-variant
sum type with one field of value 7 stores tag 1 at the destination and 7 in
the narrowed field slot. -/
theorem c5_aggregate_construction_witness :
    eval_rvalue_into_place (.Aggregate (.Adt true 1 none) [c5fieldOp]) c5dest stNop =
      .ok () c5after ∧
    c5after.mem.getD 2 0 = 1 ∧ c5after.mem.getD 3 0 = 7 := by
  have hr : ∀ j op2, ([c5fieldOp] : List Operand).get? j = some op2 →
      op2.layout.is_zst = false →
      (none : Option Nat).getD j < (aggOffsets c5dest true 1).length := by
    intro j op2 hj hz
    cases j with
    | zero => cases hj; decide
    | succ j => cases hj
  have h := (c5_aggregate_construction true 1 none [c5fieldOp] c5dest stNop rfl hr).1
  exact ⟨h.trans (by decide), by decide, by decide⟩

/-- Claim C6 counterexample: size-of on a 0-sized (but sized) type does not
fail with any error — the evaluation succeeds (writing the scalar with bits
0 at pointer width, per the amended theorem below). -/
theorem c6_counterexample :
    zstLayout.size = 0 ∧ zstLayout.isUnsized = false ∧
    (eval_rvalue_into_place (.NullaryOp .SizeOf 9) c6dest c6state).isOk = true := by
  refine ⟨rfl, rfl, by decide⟩

/-- Claim C6 (amended): size-of resolves the type against the current
instantiation and queries its layout; an unsized type trips the
internal-consistency assertion (an abort); any sized type — including a
0-sized one — succeeds, writing its byte size as a pointer-sized scalar
into the destination. -/
theorem c6_sizeof (ty : Nat) (dest : Place) (s : EvalState) (fr : Frame) (layout : Layout)
    (h1 : s.stack.getLast? = some fr)
    (h2 : s.tyLayouts.lookup (monomorphize ty fr.substs) = some layout) :
    (layout.isUnsized = true →
      eval_rvalue_into_place (.NullaryOp .SizeOf ty) dest s = .abort) ∧
    (layout.isUnsized = false →
      eval_rvalue_into_place (.NullaryOp .SizeOf ty) dest s =
        .ok () { s with
            mem := writeBytes s.mem dest.addr (scalarBytes layout.size s.ptrSize),
            trace := s.trace ++ [Event.evalPlace, Event.layoutQuery, Event.writeScalar layout.size s.ptrSize dest.addr, Event.dumpPlace] }) := by
  constructor
  · intro hu
    unfold eval_rvalue_into_place
    dsimp only [eval_place, MResult.andThen, emit]
    rw [h1]
    dsimp only [layout_of]
    rw [h2]
    dsimp only
    rw [if_pos hu]
  · intro hu
    unfold eval_rvalue_into_place
    dsimp only [eval_place, MResult.andThen, emit]
    rw [h1]
    dsimp only [layout_of]
    rw [h2]
    dsimp only
    rw [if_neg (by rw [hu]; exact Bool.false_ne_true)]
    dsimp only [write_scalar, dump_place, emit]
    simp [List.append_assoc]

/-- Witness for the amended C6: an unsized type aborts; the 8-byte type
succeeds, writing {bits: 8, size: pointer width}. -/
theorem c6_sizeof_witness :
    eval_rvalue_into_place (.NullaryOp .SizeOf 12) c6dest c6state = .abort ∧
    eval_rvalue_into_place (.NullaryOp .SizeOf 11) c6dest c6state = .ok () c6w8after ∧
    c6w8after.trace = [Event.evalPlace, Event.layoutQuery, Event.writeScalar 8 8 16, Event.dumpPlace] := by
  refine ⟨?_, ?_, by decide⟩
  · exact (c6_sizeof 12 c6dest c6state frNop unsizedLayout rfl (by decide)).1 rfl
  · exact ((c6_sizeof 11 c6dest c6state frNop size8Layout rfl (by decide)).2 rfl).trans (by decide)

/-- Claim C9 counterexample: with debug assertions compiled out (a release
build), a Cast whose resolved target type differs from the destination's
declared type is not treated as a fault — evaluation succeeds. -/
theorem c9_counterexample :
    monomorphize 7 frNop.substs ≠ c9dest.layout.ty ∧
    c9rel.debugAssertions = false ∧
    (eval_rvalue_into_place (.Cast 0 c9op 7) c9dest c9rel).isOk = true := by
  refine ⟨by decide, rfl, by decide⟩

/-- Claim C9 (amended): the cast target/destination type consistency check
is a debug assertion: when debug assertions are compiled in, a resolved
target type differing from the destination's declared type is an
unrecoverable abort — a programming-error fault distinct from every
recoverable error outcome — while in a release configuration the check does
not run at all. -/
theorem c9_cast_debug_assert (k : Nat) (op : Operand) (castTy : Nat) (dest : Place)
    (s : EvalState) (fr : Frame)
    (h1 : s.stack.getLast? = some fr)
    (h2 : s.debugAssertions = true)
    (h3 : monomorphize castTy fr.substs ≠ dest.layout.ty) :
    eval_rvalue_into_place (.Cast k op castTy) dest s = .abort := by
  unfold eval_rvalue_into_place
  dsimp only [eval_place, MResult.andThen, emit]
  rw [h1]
  dsimp only
  rw [if_pos ⟨h2, h3⟩]

/-- Witness for the amended C9: the debug-configuration mismatch aborts. -/
theorem c9_cast_debug_assert_witness :
    eval_rvalue_into_place (.Cast 0 c9op 7) c9dest stNop = .abort :=
  c9_cast_debug_assert 0 c9op 7 c9dest stNop frNop rfl rfl (by decide)
